import Mathlib

/-!
Verification development for the yordam-agent coworker subsystem.

The Python sources under `src/yordam_agent/coworker` and
`src/yordam_agent/coworker_runtime` are shallowly embedded below:

* JSON values (as produced by `json.loads`) become the inductive `Json`;
  JSON numbers are modelled as arbitrary-precision integers (the plans,
  approvals and resume states exercised by the claims never carry floats).
* `compute_plan_hash` (`coworker/plan.py`) is embedded down to the byte
  level: the canonical serialization mirrors
  `json.dumps(·, sort_keys=True, separators=(",", ":"), ensure_ascii=True)`
  and the digest is a full executable SHA-256 over the UTF-8 bytes.
* `validate_plan` (`coworker/policy.py`), `approval_matches`
  (`coworker/approval.py`), `completed_ids_from_state`
  (`coworker/run_state.py`) and `apply_plan_with_state`
  (`coworker/executor.py`) are embedded with explicit state passing: the
  ambient filesystem is a value of type `World`, `Path.expanduser().resolve()`
  is an environment-supplied function, and every primitive invocation is
  recorded in an effect log so that "this tool call was executed" is
  observable.
* `acquire_locks` (`coworker_runtime/locks.py`) is embedded over an explicit
  lock-directory state.
* `sanitize_html` (`coworker/web_tools.py`) is embedded with faithful
  models of the three regular-expression substitutions and of
  `html.unescape` restricted to the entities it needs (the model agrees
  with the real function on every string that contains no ampersand).
-/

namespace Yordam

/-! ## JSON values (the shapes produced by `json.loads`) -/

/-- A JSON value as handled by the Python code.  Numbers are modelled as
(arbitrary-precision) integers; objects are association lists in insertion
order, mirroring a `dict`'s item order. -/
inductive Json where
  | null
  | bool (b : Bool)
  | int (n : Int)
  | str (s : String)
  | arr (xs : List Json)
  | obj (kvs : List (String × Json))
deriving Repr

mutual

def Json.beq : Json → Json → Bool
  | .null, .null => true
  | .bool a, .bool b => a == b
  | .int a, .int b => a == b
  | .str a, .str b => a == b
  | .arr a, .arr b => Json.beqList a b
  | .obj a, .obj b => Json.beqPairs a b
  | _, _ => false

def Json.beqList : List Json → List Json → Bool
  | [], [] => true
  | a :: as, b :: bs => Json.beq a b && Json.beqList as bs
  | _, _ => false

def Json.beqPairs : List (String × Json) → List (String × Json) → Bool
  | [], [] => true
  | (ka, va) :: as, (kb, vb) :: bs => ka == kb && Json.beq va vb && Json.beqPairs as bs
  | _, _ => false

end

instance : BEq Json := ⟨Json.beq⟩

mutual

theorem Json.beq_iff : ∀ a b : Json, Json.beq a b = true ↔ a = b
  | .null, b => by cases b <;> simp [Json.beq]
  | .bool x, b => by cases b <;> simp [Json.beq]
  | .int x, b => by cases b <;> simp [Json.beq]
  | .str x, b => by cases b <;> simp [Json.beq]
  | .arr xs, b => by
      cases b <;> simp [Json.beq]
      exact Json.beqList_iff xs _
  | .obj kvs, b => by
      cases b <;> simp [Json.beq]
      exact Json.beqPairs_iff kvs _

theorem Json.beqList_iff : ∀ a b : List Json, Json.beqList a b = true ↔ a = b
  | [], b => by cases b <;> simp [Json.beqList]
  | x :: xs, b => by
      cases b with
      | nil => simp [Json.beqList]
      | cons y ys =>
          simp only [Json.beqList, Bool.and_eq_true, List.cons.injEq]
          exact and_congr (Json.beq_iff x y) (Json.beqList_iff xs ys)

theorem Json.beqPairs_iff :
    ∀ a b : List (String × Json), Json.beqPairs a b = true ↔ a = b
  | [], b => by cases b <;> simp [Json.beqPairs]
  | (k, v) :: xs, b => by
      cases b with
      | nil => simp [Json.beqPairs]
      | cons y ys =>
          obtain ⟨k2, v2⟩ := y
          simp only [Json.beqPairs, Bool.and_eq_true, List.cons.injEq, Prod.mk.injEq,
            beq_iff_eq]
          constructor
          · rintro ⟨⟨hk, hv⟩, hrest⟩
            exact ⟨⟨hk, (Json.beq_iff v v2).mp hv⟩, (Json.beqPairs_iff xs ys).mp hrest⟩
          · rintro ⟨⟨hk, hv⟩, hrest⟩
            exact ⟨⟨hk, (Json.beq_iff v v2).mpr hv⟩, (Json.beqPairs_iff xs ys).mpr hrest⟩

end

instance : DecidableEq Json := fun a b =>
  decidable_of_iff (Json.beq a b = true) (Json.beq_iff a b)

instance {ε α : Type} [DecidableEq ε] [DecidableEq α] : DecidableEq (Except ε α) :=
  fun a b =>
    match a, b with
    | .error e1, .error e2 => decidable_of_iff (e1 = e2) (by simp)
    | .ok v1, .ok v2 => decidable_of_iff (v1 = v2) (by simp)
    | .error _, .ok _ => isFalse (by intro h; cases h)
    | .ok _, .error _ => isFalse (by intro h; cases h)

instance : LawfulBEq Json where
  eq_of_beq h := (Json.beq_iff _ _).mp h
  rfl := (Json.beq_iff _ _).mpr rfl

/-! Character-level string helpers.  They implement the same functions as
`String.take`, `String.drop`, `String.startsWith`, `String.endsWith` and
`str.split(sep)` over the character list, which (unlike the `String.Pos`
loops of the library versions) the kernel evaluates. -/

def strTake (s : String) (n : Nat) : String := String.mk (s.data.take n)

def strDrop (s : String) (n : Nat) : String := String.mk (s.data.drop n)

def strStarts (s pre : String) : Bool := pre.data.isPrefixOf s.data

def strEnds (s suf : String) : Bool := suf.data.isSuffixOf s.data

def splitCharsOn (sep : Char) : List Char → List (List Char)
  | [] => [[]]
  | c :: rest =>
      match splitCharsOn sep rest with
      | [] => if c = sep then [[], []] else [[c]]
      | h :: t => if c = sep then [] :: h :: t else (c :: h) :: t

/-- `str.split(sep)` for a one-character separator. -/
def strSplitOnChar (sep : Char) (s : String) : List String :=
  (splitCharsOn sep s.data).map String.mk

/-- `str.lower()` / `str.upper()` (character-wise, like the library
functions, but kernel-reducible). -/
def strLower (s : String) : String := String.mk (s.data.map Char.toLower)

def strUpper (s : String) : String := String.mk (s.data.map Char.toUpper)

/-- `dict.get(k)`: first binding for the key (Python dicts have unique keys;
association lists with duplicate keys do not correspond to any real dict). -/
def jget : List (String × Json) → String → Option Json
  | [], _ => none
  | (k0, v) :: rest, k => if k0 = k then some v else jget rest k

/-- `dict.get(k, d)`. -/
def jgetD (kvs : List (String × Json)) (k : String) (d : Json) : Json :=
  (jget kvs k).getD d

/-- Python truthiness of a JSON value (`if value:`). -/
def pyTruthy : Json → Bool
  | .null => false
  | .bool b => b
  | .int n => n != 0
  | .str s => s ≠ ""
  | .arr xs => xs ≠ []
  | .obj kvs => kvs ≠ []

/-! ## UTF-8 and hex -/

/-- UTF-8 encoding of one unicode scalar value (`str.encode("utf-8")`). -/
def utf8Char (c : Char) : List Nat :=
  let u := c.toNat
  if u < 0x80 then [u]
  else if u < 0x800 then [0xc0 + u / 64, 0x80 + u % 64]
  else if u < 0x10000 then [0xe0 + u / 4096, 0x80 + (u / 64) % 64, 0x80 + u % 64]
  else [0xf0 + u / 262144, 0x80 + (u / 4096) % 64, 0x80 + (u / 64) % 64, 0x80 + u % 64]

/-- UTF-8 bytes of a string. -/
def utf8Bytes (s : String) : List Nat := (s.data.map utf8Char).flatten

/-- Lowercase hexadecimal digit. -/
def hexDigit (n : Nat) : Char :=
  if n < 10 then Char.ofNat (48 + n) else Char.ofNat (87 + n)

def hexPadAux : Nat → Nat → List Char → List Char
  | 0, _, acc => acc
  | k + 1, n, acc => hexPadAux k (n / 16) (hexDigit (n % 16) :: acc)

/-- `n` printed as exactly `len` lowercase hex digits (leading zeros kept). -/
def hexPad (len n : Nat) : String := String.mk (hexPadAux len n [])

/-! ## SHA-256 (`hashlib.sha256`), executable over `Nat` -/

/-- Truncation to a 32-bit word. -/
def w32 (n : Nat) : Nat := n % 4294967296

/-- Right rotation of a 32-bit word by `k`. -/
def rotr (k x : Nat) : Nat := (x >>> k) + w32 ((x % 2 ^ k) <<< (32 - k))

def shaCh (x y z : Nat) : Nat := (x &&& y) ^^^ ((x ^^^ 0xffffffff) &&& z)

def shaMaj (x y z : Nat) : Nat := (x &&& y) ^^^ (x &&& z) ^^^ (y &&& z)

def bigSigma0 (x : Nat) : Nat := rotr 2 x ^^^ rotr 13 x ^^^ rotr 22 x

def bigSigma1 (x : Nat) : Nat := rotr 6 x ^^^ rotr 11 x ^^^ rotr 25 x

def smallSigma0 (x : Nat) : Nat := rotr 7 x ^^^ rotr 18 x ^^^ (x >>> 3)

def smallSigma1 (x : Nat) : Nat := rotr 17 x ^^^ rotr 19 x ^^^ (x >>> 10)

/-- Integer cube root by bisection (`lo³ ≤ n < hi³` is maintained). -/
def cbrtGo (n : Nat) : Nat → Nat → Nat → Nat
  | 0, lo, _ => lo
  | fuel + 1, lo, hi =>
      if hi ≤ lo + 1 then lo
      else
        let mid := (lo + hi) / 2
        if mid ^ 3 ≤ n then cbrtGo n fuel mid hi else cbrtGo n fuel lo mid

def cbrtFloor (n : Nat) : Nat := cbrtGo n 200 0 (n + 1)

/-- Integer square root by bisection (kernel-reducible, unlike `Nat.sqrt`). -/
def sqrtGo (n : Nat) : Nat → Nat → Nat → Nat
  | 0, lo, _ => lo
  | fuel + 1, lo, hi =>
      if hi ≤ lo + 1 then lo
      else
        let mid := (lo + hi) / 2
        if mid ^ 2 ≤ n then sqrtGo n fuel mid hi else sqrtGo n fuel lo mid

def sqrtFloor (n : Nat) : Nat := sqrtGo n 200 0 (n + 1)

/-- The first 64 primes, source of the SHA-256 round constants. -/
def primes64 : List Nat :=
  [2, 3, 5, 7, 11, 13, 17, 19, 23, 29, 31, 37, 41, 43, 47, 53,
   59, 61, 67, 71, 73, 79, 83, 89, 97, 101, 103, 107, 109, 113, 127, 131,
   137, 139, 149, 151, 157, 163, 167, 173, 179, 181, 191, 193, 197, 199, 211, 223,
   227, 229, 233, 239, 241, 251, 257, 263, 269, 271, 277, 281, 283, 293, 307, 311]

/-- First 32 bits of the fractional part of the cube root of a prime. -/
def kConstOf (p : Nat) : Nat := w32 (cbrtFloor (p * 2 ^ 96))

/-- First 32 bits of the fractional part of the square root of a prime. -/
def hConstOf (p : Nat) : Nat := w32 (sqrtFloor (p * 2 ^ 64))

def shaK : List Nat := primes64.map kConstOf

/-- Working state: eight 32-bit words. -/
structure H8 where
  a : Nat
  b : Nat
  c : Nat
  d : Nat
  e : Nat
  f : Nat
  g : Nat
  h : Nat
deriving Repr, DecidableEq

def shaInit : H8 :=
  match (primes64.take 8).map hConstOf with
  | [a, b, c, d, e, f, g, h] => ⟨a, b, c, d, e, f, g, h⟩
  | _ => ⟨0, 0, 0, 0, 0, 0, 0, 0⟩

/-- SHA-256 padding: `0x80`, zeros to 56 mod 64, 8-byte big-endian bit length. -/
def shaPad (msg : List Nat) : List Nat :=
  let L := msg.length
  let padLen := (120 - (L + 1) % 64) % 64
  let bits := L * 8
  msg ++ [0x80] ++ List.replicate padLen 0 ++
    [255 &&& (bits >>> 56), 255 &&& (bits >>> 48), 255 &&& (bits >>> 40),
     255 &&& (bits >>> 32), 255 &&& (bits >>> 24), 255 &&& (bits >>> 16),
     255 &&& (bits >>> 8), 255 &&& bits]

/-- Split a byte list into 64-byte blocks. -/
def blocks64Go : Nat → List Nat → List (List Nat)
  | 0, _ => []
  | _, [] => []
  | fuel + 1, x :: rest => ((x :: rest).take 64) :: blocks64Go fuel ((x :: rest).drop 64)

def blocks64 (l : List Nat) : List (List Nat) := blocks64Go (l.length + 1) l

/-- The sixteen big-endian 32-bit words of one block. -/
def toWords : List Nat → List Nat
  | b0 :: b1 :: b2 :: b3 :: rest =>
      ((b0 <<< 24) + (b1 <<< 16) + (b2 <<< 8) + b3) :: toWords rest
  | _ => []

/-- Message-schedule extension: append `k` further words. -/
def extendW (ws : List Nat) : Nat → List Nat
  | 0 => ws
  | k + 1 =>
      let prev := extendW ws k
      let n := prev.length
      let w := w32 (smallSigma1 (prev.getD (n - 2) 0) + prev.getD (n - 7) 0 +
        smallSigma0 (prev.getD (n - 15) 0) + prev.getD (n - 16) 0)
      prev ++ [w]

/-- One compression round. -/
def shaStep (st : H8) (kw : Nat × Nat) : H8 :=
  let t1 := w32 (st.h + bigSigma1 st.e + shaCh st.e st.f st.g + kw.1 + kw.2)
  let t2 := w32 (bigSigma0 st.a + shaMaj st.a st.b st.c)
  ⟨w32 (t1 + t2), st.a, st.b, st.c, w32 (st.d + t1), st.e, st.f, st.g⟩

/-- Compression of one 64-byte block. -/
def compressBlock (st : H8) (block : List Nat) : H8 :=
  let ws := extendW (toWords block) 48
  let f := (shaK.zip ws).foldl shaStep st
  ⟨w32 (st.a + f.a), w32 (st.b + f.b), w32 (st.c + f.c), w32 (st.d + f.d),
   w32 (st.e + f.e), w32 (st.f + f.f), w32 (st.g + f.g), w32 (st.h + f.h)⟩

/-- The SHA-256 digest of a byte string, as a natural number < 2^256. -/
def sha256Nat (msg : List Nat) : Nat :=
  let f := ((blocks64 (shaPad msg)).foldl compressBlock shaInit)
  ((((((f.a <<< 32 ||| f.b) <<< 32 ||| f.c) <<< 32 ||| f.d) <<< 32 ||| f.e) <<< 32
    ||| f.f) <<< 32 ||| f.g) <<< 32 ||| f.h

/-- `hashlib.sha256(bytes).hexdigest()`: 64 lowercase hex digits. -/
def sha256Hex (msg : List Nat) : String := hexPad 64 (sha256Nat msg)

/-! ## `json.dumps(·, sort_keys=True, separators=(",", ":"), ensure_ascii=True)` -/

/-- The escape of one character inside a JSON string literal, following
CPython's `py_encode_basestring_ascii`: printable ASCII other than the
quote and backslash is kept, the five classic control characters get their
two-character escapes, everything else becomes `\uXXXX` (with a surrogate
pair above the BMP). -/
def escChar (c : Char) : String :=
  let u := c.toNat
  if c = '"' then "\\\""
  else if c = '\\' then "\\\\"
  else if u = 10 then "\\n"
  else if u = 9 then "\\t"
  else if u = 13 then "\\r"
  else if u = 8 then "\\b"
  else if u = 12 then "\\f"
  else if 32 ≤ u ∧ u ≤ 126 then String.singleton c
  else if u < 0x10000 then "\\u" ++ hexPad 4 u
  else
    let v := u - 0x10000
    "\\u" ++ hexPad 4 (0xd800 + v / 1024) ++ "\\u" ++ hexPad 4 (0xdc00 + v % 1024)

/-- A JSON string literal. -/
def quoteStr (s : String) : String :=
  "\"" ++ String.join (s.data.map escChar) ++ "\""

/-- Code-point lexicographic `≤` on character lists: the order Python uses
to compare strings. -/
def charsLe : List Char → List Char → Bool
  | [], _ => true
  | _ :: _, [] => false
  | a :: as, b :: bs =>
      if a.toNat < b.toNat then true
      else if b.toNat < a.toNat then false
      else charsLe as bs

/-- `a <= b` on Python strings. -/
def strLe (a b : String) : Bool := charsLe a.data b.data

/-- Stable insertion of a keyed pair into a key-sorted list (ties keep the
incoming element first, matching the stability of Python's `sorted`). -/
def insPair {α : Type} (p : String × α) : List (String × α) → List (String × α)
  | [] => [p]
  | q :: rest => if strLe p.1 q.1 then p :: q :: rest else q :: insPair p rest

/-- Stable sort of keyed pairs by key (`sorted(d.items())` on a dict whose
keys are strings). -/
def sortPairs {α : Type} : List (String × α) → List (String × α)
  | [] => []
  | p :: rest => insPair p (sortPairs rest)

mutual

/-- `json.dumps(value, sort_keys=True, separators=(",", ":"),
ensure_ascii=True)`.  Object entries are serialized and then sorted by key,
which agrees with CPython's sort-then-serialize because the sort key is the
key string alone and the sort is stable. -/
def ser : Json → String
  | .null => "null"
  | .bool true => "true"
  | .bool false => "false"
  | .int n => toString n
  | .str s => quoteStr s
  | .arr xs => "[" ++ String.intercalate "," (serList xs) ++ "]"
  | .obj kvs =>
      "\x7b" ++
        String.intercalate ","
          ((sortPairs (serPairs kvs)).map fun p => quoteStr p.1 ++ ":" ++ p.2) ++
        "\x7d"

def serList : List Json → List String
  | [] => []
  | x :: xs => ser x :: serList xs

def serPairs : List (String × Json) → List (String × String)
  | [] => []
  | (k, v) :: rest => (k, ser v) :: serPairs rest

end

/-- `_strip_hash_fields` (`coworker/plan.py`): drop the `plan_hash` and
`approval` keys. -/
def strip_hash_fields (kvs : List (String × Json)) : List (String × Json) :=
  kvs.filter fun kv => ¬(kv.1 = "plan_hash" ∨ kv.1 = "approval")

/-- `compute_plan_hash` (`coworker/plan.py`) on the key/value pairs of a plan
object: `"sha256:" + sha256(dumps(stripped)).hexdigest()`. -/
def computePlanHashKv (kvs : List (String × Json)) : String :=
  "sha256:" ++ sha256Hex (utf8Bytes (ser (Json.obj (strip_hash_fields kvs))))

/-- `compute_plan_hash` on an arbitrary value; a non-object argument makes
the Python function crash on `plan.items()`. -/
def compute_plan_hash : Json → Except String String
  | .obj kvs => .ok (computePlanHashKv kvs)
  | _ => .error "AttributeError: items"

mutual

/-- Canonical form of a JSON value: object keys sorted recursively.  Two
well-formed values (unique keys at every object) are structurally equal —
equal as the nested dicts/lists Python compares with `==` — iff their
canonical forms are equal. -/
def canon : Json → Json
  | .arr xs => .arr (canonList xs)
  | .obj kvs => .obj (sortPairs (canonPairs kvs))
  | j => j

def canonList : List Json → List Json
  | [] => []
  | x :: xs => canon x :: canonList xs

def canonPairs : List (String × Json) → List (String × Json)
  | [] => []
  | (k, v) :: rest => (k, canon v) :: canonPairs rest

end

/-! ## Python builtin coercions used by the sources -/

/-- Simplified model of `repr` on a Python `str`: quote choice and the
escapes for backslash, the quote, and the three classic control characters.
(The full CPython rules for exotic characters are not needed: `repr` of a
string only ever reaches the embedded code through `str()` of a container,
which no validated plan exercises.) -/
def pyStrRepr (s : String) : String :=
  let sq := Char.ofNat 39
  let useDouble := s.data.contains sq && !(s.data.contains '"')
  let q := if useDouble then '"' else sq
  let esc := fun c =>
    if c = '\\' || c = q then "\\" ++ String.singleton c
    else if c = '\n' then "\\n"
    else if c = '\r' then "\\r"
    else if c = '\t' then "\\t"
    else String.singleton c
  String.singleton q ++ String.join (s.data.map esc) ++ String.singleton q

mutual

/-- `repr` of a JSON value seen as the corresponding Python value. -/
def pyRepr : Json → String
  | .null => "None"
  | .bool true => "True"
  | .bool false => "False"
  | .int n => toString n
  | .str s => pyStrRepr s
  | .arr xs => "[" ++ String.intercalate ", " (pyReprList xs) ++ "]"
  | .obj kvs => "\x7b" ++ String.intercalate ", " (pyReprPairs kvs) ++ "\x7d"

def pyReprList : List Json → List String
  | [] => []
  | x :: xs => pyRepr x :: pyReprList xs

def pyReprPairs : List (String × Json) → List String
  | [] => []
  | (k, v) :: rest => (pyStrRepr k ++ ": " ++ pyRepr v) :: pyReprPairs rest

end

/-- `str()` of a JSON value seen as the corresponding Python value. -/
def pyStr : Json → String
  | .null => "None"
  | .bool true => "True"
  | .bool false => "False"
  | .int n => toString n
  | .str s => s
  | j => pyRepr j

/-- `iter()`: lists yield their elements, strings their characters, dicts
their keys; everything else raises `TypeError`. -/
def pyIterate : Json → Except String (List Json)
  | .arr xs => .ok xs
  | .str s => .ok (s.data.map fun c => .str (String.singleton c))
  | .obj kvs => .ok (kvs.map fun kv => .str kv.1)
  | _ => .error "TypeError: object is not iterable"

/-- `int(str)`: optional surrounding whitespace, optional sign, digits. -/
def parseIntStr (s : String) : Option Int :=
  let t := (s.data.dropWhile (· = ' ')).reverse.dropWhile (· = ' ') |>.reverse
  let (neg, digits) :=
    match t with
    | '-' :: rest => (true, rest)
    | '+' :: rest => (false, rest)
    | l => (false, l)
  if digits = [] || !(digits.all Char.isDigit) then none
  else
    let v : Nat := digits.foldl (fun acc c => acc * 10 + (c.toNat - 48)) 0
    some (if neg then -(v : Int) else (v : Int))

/-- `int()` applied to a JSON value (`bool` is an `int` subtype in Python). -/
def pyToInt : Json → Except String Int
  | .int n => .ok n
  | .bool b => .ok (if b then 1 else 0)
  | .str s =>
      match parseIntStr s with
      | some n => .ok n
      | none => .error "ValueError: invalid literal for int"
  | _ => .error "TypeError: int() argument"

/-- The value must be a Python `str` (`Path(x)`, `tmp.write(x)`, …). -/
def asStr : Json → Except String String
  | .str s => .ok s
  | _ => .error "TypeError: str expected"

/-! ## Paths, filesystem state, and the effect log -/

/-- A fully resolved absolute path, as its list of components
(`Path("/a/b")` is `["a", "b"]`).  `Path.expanduser().resolve()` is an
environment-supplied function producing such a value. -/
abbrev PathT := List String

/-- `str(Path)` for an absolute path. -/
def pathStr (p : PathT) : String := "/" ++ String.intercalate "/" p

/-- Filesystem contents: text files keyed by resolved path, plus the set of
directories. -/
structure Fs where
  files : List (PathT × String)
  dirs : List PathT
deriving Repr, DecidableEq

def flookup : List (PathT × String) → PathT → Option String
  | [], _ => none
  | (q, c) :: rest, p => if q = p then some c else flookup rest p

def Fs.isFile (fs : Fs) (p : PathT) : Bool := (flookup fs.files p).isSome

def Fs.isDir (fs : Fs) (p : PathT) : Bool := fs.dirs.contains p

/-- `path.exists()`. -/
def Fs.pexists (fs : Fs) (p : PathT) : Bool := fs.isFile p || fs.isDir p

/-- Replace-or-add a file binding. -/
def fupdate : List (PathT × String) → PathT → String → List (PathT × String)
  | [], p, c => [(p, c)]
  | (q, c0) :: rest, p, c =>
      if q = p then (p, c) :: rest else (q, c0) :: fupdate rest p c

/-- Remove a file binding. -/
def fremove : List (PathT × String) → PathT → List (PathT × String)
  | [], _ => []
  | (q, c0) :: rest, p => if q = p then fremove rest p else (q, c0) :: fremove rest p

/-- All proper prefixes of a path (the directories `mkdir(parents=True)`
creates along the way, plus the directory itself). -/
def ancestorsOf : PathT → List PathT
  | [] => [[]]
  | x :: rest => [] :: (ancestorsOf rest).map (x :: ·)

/-- `path.mkdir(parents=True, exist_ok=True)`. -/
def Fs.mkdirParents (fs : Fs) (p : PathT) : Fs :=
  { fs with dirs := fs.dirs ++ (ancestorsOf p).filter (fun d => !(fs.dirs.contains d)) }

/-- Stable insertion sort on strings (`sorted`). -/
def insStr (s : String) : List String → List String
  | [] => [s]
  | t :: rest => if strLe s t then s :: t :: rest else t :: insStr s rest

def sortStrs : List String → List String
  | [] => []
  | s :: rest => insStr s (sortStrs rest)

/-- Names of the immediate children of a directory. -/
def childNames (fs : Fs) (p : PathT) : List String :=
  ((fs.files.map Prod.fst ++ fs.dirs).filterMap fun q =>
    if q.length = p.length + 1 && p.isPrefixOf q then q.getLast? else none)

def dedupStrs (l : List String) : List String :=
  l.foldl (fun acc s => if acc.contains s then acc else acc ++ [s]) []

/-- `read_text` (`coworker/fs_tools.py`): at most `max_bytes` characters of
the decoded text (a `TextIOBase.read(size)` size is a character count; a
negative size reads everything). -/
def fsReadText (fs : Fs) (p : PathT) (maxBytes : Int) : Except String String :=
  match flookup fs.files p with
  | some content =>
      .ok (if maxBytes < 0 then content else strTake content maxBytes.toNat)
  | none =>
      if fs.isDir p then .error "IsADirectoryError" else .error "FileNotFoundError"

/-- `list_dir` (`coworker/fs_tools.py`): sorted child names, capped at 200. -/
def fsListDir (fs : Fs) (p : PathT) : Except String (List String) :=
  if fs.isDir p then .ok ((sortStrs (dedupStrs (childNames fs p))).take 200)
  else .error "NotADirectoryError"

/-- `apply_write_file` (`coworker/fs_tools.py`): temp file + atomic replace;
in the state model, parent directories come into existence and the binding
is replaced or added. -/
def fsApplyWrite (fs : Fs) (p : PathT) (content : String) : Except String Fs :=
  if fs.isDir p then .error "IsADirectoryError"
  else
    let fs1 := fs.mkdirParents p.dropLast
    .ok { fs1 with files := fupdate fs1.files p content }

/-- `move_path` (`coworker/fs_tools.py`): ensure the destination's parent
exists, then `shutil.move`.  Moving a directory re-roots its subtree. -/
def fsMovePath (fs : Fs) (src dst : PathT) : Except String Fs :=
  let fs1 := fs.mkdirParents dst.dropLast
  if fs1.isFile src then
    .ok { fs1 with files := fupdate (fremove fs1.files src) dst ((flookup fs1.files src).getD "") }
  else if fs1.isDir src then
    .ok { files := fs1.files.map fun qc =>
            if src.isPrefixOf qc.1 then (dst ++ qc.1.drop src.length, qc.2) else qc,
          dirs := fs1.dirs.map fun q =>
            if src.isPrefixOf q then dst ++ q.drop src.length else q }
  else .error "FileNotFoundError"

/-- `propose_write_file` (`coworker/fs_tools.py`) produces a unified diff and
never mutates; the executor only tests the diff for non-emptiness, which
holds exactly when the compared line sequences differ. -/
def pySplitlines (s : String) : List String :=
  let parts := strSplitOnChar '\n' s
  match parts.reverse with
  | "" :: rest => rest.reverse
  | _ => parts

def fsProposeDiff (fs : Fs) (p : PathT) (content : String) (maxBytes : Int) : Bool :=
  let existing :=
    if fs.pexists p then
      if maxBytes > 0 then strTake ((flookup fs.files p).getD "") maxBytes.toNat else ""
    else ""
  pySplitlines existing ≠ pySplitlines content

/-- One observable tool-side effect, tagged with the index of the tool call
that performed it. -/
inductive Effect where
  | wrote (p : PathT) (content : String)
  | movedE (src dst : PathT)
  | renamedE (src dst : PathT)
  | proposedE (p : PathT)
  | readE (p : PathT)
  | listedE (p : PathT)
  | extractedE (p : PathT)
  | fetchedE (url : String)
  | skippedE (tool : String)
deriving Repr, DecidableEq

/-- The mutable outside world as the executor sees it: the filesystem plus
the log of primitive invocations. -/
structure World where
  fs : Fs
  log : List (Nat × Effect)
deriving Repr, DecidableEq

/-- Ambient host behaviour that the embedded code consumes but does not
define: path resolution (`Path(s).expanduser().resolve()`), the clock,
PDF text extraction (a subprocess), and the network side of `fetch_url`. -/
structure PyEnv where
  resolve : String → PathT
  now : String
  extractText : PathT → Int → String → String
  web : String → Int → List String → Except String (String × String)

/-! ## Tool registry (`coworker/registry.py`) -/

structure ToolSpec where
  name : String
  category : String
  requires_approval : Bool
deriving Repr, DecidableEq

structure ToolRegistry where
  tools : List ToolSpec
deriving Repr, DecidableEq

/-- `ToolRegistry.get`. -/
def ToolRegistry.get (r : ToolRegistry) (name : String) : Option ToolSpec :=
  r.tools.find? fun t => t.name == name

def DEFAULT_REGISTRY : ToolRegistry :=
  ⟨[⟨"fs.read_text", "read", false⟩,
    ⟨"fs.list_dir", "read", false⟩,
    ⟨"fs.propose_write_file", "write", false⟩,
    ⟨"fs.apply_write_file", "write", true⟩,
    ⟨"fs.move", "write", true⟩,
    ⟨"fs.rename", "write", true⟩,
    ⟨"doc.extract_pdf_text", "read", false⟩,
    ⟨"web.fetch", "network", true⟩]⟩

/-! ## Policy (`coworker/policy.py`) -/

structure CoworkerPolicy where
  allowed_roots : List PathT
  max_read_bytes : Int
  max_write_bytes : Int
  max_web_bytes : Int
  max_query_chars : Int
  require_approval : Bool
  web_enabled : Bool
  web_allowlist : List String
deriving Repr, DecidableEq

/-- `_is_within_roots`: `path.relative_to(root)` succeeds iff `root` is a
component prefix of `path`. -/
def is_within_roots (p : PathT) (roots : List PathT) : Bool :=
  roots.any fun r => r.isPrefixOf p

/-- `_host_allowed` (`coworker/policy.py` and `coworker/web_tools.py`). -/
def host_allowed (host : String) (allowlist : List String) : Bool :=
  let h := strLower host
  allowlist.any fun entry =>
    let c := strLower entry
    h == c || strEnds h ("." ++ c)

/-- The pieces of `urllib.parse.urlparse` the policy consumes, modelled for
`scheme://[user@]host[:port]/path?query#fragment` shapes. -/
structure UrlParts where
  scheme : String
  host : String
  query : String
deriving Repr, DecidableEq

/-- Split the characters at the first occurrence of `://`. -/
def splitSchemeRest : List Char → Option (List Char × List Char)
  | [] => none
  | c :: rest =>
      if [':', '/', '/'].isPrefixOf (c :: rest) then some ([], rest.drop 2)
      else
        match splitSchemeRest rest with
        | some (a, b) => some (c :: a, b)
        | none => none

def urlparse (url : String) : UrlParts :=
  let (scheme, rest) :=
    match splitSchemeRest url.data with
    | some (s, r) => (strLower (String.mk s), r)
    | none => ("", url.data)
  let netloc := rest.takeWhile fun c => c ≠ '/' && c ≠ '?' && c ≠ '#'
  let afterAt := (splitCharsOn '@' netloc).getLastD netloc
  let host := strLower (String.mk (afterAt.takeWhile (· ≠ ':')))
  let afterPath := rest.dropWhile (· ≠ '?')
  let query :=
    match afterPath with
    | '?' :: qs => String.mk (qs.takeWhile (· ≠ '#'))
    | _ => ""
  ⟨scheme, host, query⟩

/-- `_validate_fs_call`. -/
def validate_fs_call (env : PyEnv) (fs : Fs) (tool : String)
    (args : List (String × Json)) (policy : CoworkerPolicy) :
    Except String (List String) := do
  let raw_path := jgetD args "path" .null
  if !(pyTruthy raw_path) then
    return [tool ++ " missing path"]
  let ps ← asStr raw_path
  let path := env.resolve ps
  if !(is_within_roots path policy.allowed_roots) then
    return [tool ++ " path outside allowlist: " ++ pathStr path]
  if tool = "fs.read_text" then
    let mb ← pyToInt (jgetD args "max_bytes" (.int policy.max_read_bytes))
    let e1 := if mb ≤ 0 then ["fs.read_text max_bytes must be positive"] else []
    let e2 := if mb > policy.max_read_bytes then ["fs.read_text max_bytes exceeds policy limit"] else []
    let e3 := if !(fs.pexists path) || !(fs.isFile path) then
        ["fs.read_text file missing: " ++ pathStr path] else []
    return e1 ++ e2 ++ e3
  else if tool = "fs.list_dir" then
    return (if !(fs.pexists path) || !(fs.isDir path) then
      ["fs.list_dir directory missing: " ++ pathStr path] else [])
  else if tool = "fs.propose_write_file" then
    let content := jgetD args "content" .null
    let e1 :=
      match content with
      | .str _ => []
      | _ => ["fs.propose_write_file requires content"]
    let e2 :=
      match content with
      | .str s =>
          if (utf8Bytes s).length > policy.max_write_bytes then
            ["fs.propose_write_file content exceeds policy limit"] else []
      | _ => []
    return e1 ++ e2
  else if tool = "fs.apply_write_file" then
    let content := jgetD args "content" .null
    let e1 :=
      match content with
      | .str _ => []
      | _ => ["fs.apply_write_file requires content"]
    let e2 :=
      match content with
      | .str s =>
          if (utf8Bytes s).length > policy.max_write_bytes then
            ["fs.apply_write_file content exceeds policy limit"] else []
      | _ => []
    let e3 := if fs.pexists path then
        ["fs.apply_write_file cannot overwrite existing file in v1"] else []
    let e4 := if !(fs.pexists path.dropLast) then
        ["fs.apply_write_file parent directory missing"] else []
    return e1 ++ e2 ++ e3 ++ e4
  else if tool = "fs.move" || tool = "fs.rename" then
    let dst_raw := jgetD args "dst" .null
    if !(pyTruthy dst_raw) then
      return [tool ++ " missing dst"]
    let ds ← asStr dst_raw
    let dst := env.resolve ds
    let e1 := if !(is_within_roots dst policy.allowed_roots) then
        [tool ++ " dst outside allowlist: " ++ pathStr dst] else []
    let e2 := if !(fs.pexists path) then [tool ++ " src missing: " ++ pathStr path] else []
    let e3 := if fs.pexists dst then [tool ++ " dst exists (overwrite not allowed)"] else []
    return e1 ++ e2 ++ e3
  else
    return []

/-- `_validate_doc_call`. -/
def validate_doc_call (env : PyEnv) (fs : Fs) (tool : String)
    (args : List (String × Json)) (policy : CoworkerPolicy) :
    Except String (List String) := do
  let e0 := if args.any (fun kv => !(["path", "max_chars", "ocr_mode"].contains kv.1)) then
      [tool ++ " includes unsupported fields"] else []
  let raw_path := jgetD args "path" .null
  if !(pyTruthy raw_path) then
    return e0 ++ [tool ++ " missing path"]
  let ps ← asStr raw_path
  let path := env.resolve ps
  let e1 := if !(is_within_roots path policy.allowed_roots) then
      [tool ++ " path outside allowlist: " ++ pathStr path] else []
  let e2 := if !(fs.pexists path) || !(fs.isFile path) then
      [tool ++ " file missing: " ++ pathStr path] else []
  let e3 :=
    match jget args "ocr_mode" with
    | none => []
    | some .null => []
    | some v => if !([Json.str "off", Json.str "ask", Json.str "on"].contains v) then
        [tool ++ " invalid ocr_mode"] else []
  let e4 ←
    match jget args "max_chars" with
    | none => pure []
    | some .null => pure []
    | some (.bool _) => pure [tool ++ " max_chars must be integer"]
    | some v =>
        match pyToInt v with
        | .error _ => pure [tool ++ " max_chars must be integer"]
        | .ok n =>
            pure ((if n ≤ 0 then [tool ++ " max_chars must be positive"] else []) ++
              (if n > policy.max_read_bytes then [tool ++ " max_chars exceeds policy limit"] else []))
  return e0 ++ e1 ++ e2 ++ e3 ++ e4

/-- `_validate_web_call`. -/
def validate_web_call (args : List (String × Json)) (policy : CoworkerPolicy) :
    Except String (List String) := do
  if !policy.web_enabled then
    return ["web.fetch blocked (web not enabled)"]
  let e0 := if args.any
      (fun kv => !(["url", "allowlist", "max_bytes", "method", "allow_query"].contains kv.1)) then
      ["web.fetch includes unsupported fields"] else []
  let e1 := (["body", "payload", "data", "content", "text", "file", "files"].filter
      (fun k => (jget args k).isSome)).map fun _ => "web.fetch cannot send local content"
  let allow_query := jgetD args "allow_query" .null
  let e2 :=
    match jget args "allow_query" with
    | none => []
    | some .null => []
    | some (.bool _) => []
    | some _ => ["web.fetch allow_query must be boolean"]
  let url := jgetD args "url" .null
  if !(pyTruthy url) then
    return e0 ++ e1 ++ e2 ++ ["web.fetch missing url"]
  let allowlist := jgetD args "allowlist" .null
  let entries ←
    match allowlist with
    | .arr items =>
        if items = [] then pure none
        else pure (some (items.map pyStr))
    | _ => pure none
  match entries with
  | none => return e0 ++ e1 ++ e2 ++ ["web.fetch requires per-task allowlist"]
  | some allowlist_entries =>
    let normalized := allowlist_entries.map strLower
    if policy.web_allowlist ≠ [] then
      let policySet := policy.web_allowlist.map strLower
      if !(normalized.all policySet.contains) then
        return e0 ++ e1 ++ e2 ++ ["web.fetch allowlist not permitted by policy"]
    let us ← asStr url
    let parsed := urlparse us
    if !(["http", "https"].contains parsed.scheme) then
      return e0 ++ e1 ++ e2 ++ ["web.fetch only supports http(s)"]
    let e3 :=
      if parsed.query ≠ "" then
        (if !(pyTruthy allow_query) then ["web.fetch query requires allow_query=true"] else []) ++
        (if (parsed.query.length : Int) > policy.max_query_chars then
          ["web.fetch query exceeds policy limit"] else [])
      else []
    let e4 := if !(host_allowed parsed.host allowlist_entries) then
        ["web.fetch url not in allowlist"] else []
    let mb ← pyToInt (jgetD args "max_bytes" (.int policy.max_web_bytes))
    let e5 := if mb ≤ 0 then ["web.fetch max_bytes must be positive"] else []
    let e6 := if mb > policy.max_web_bytes then ["web.fetch max_bytes exceeds policy limit"] else []
    let e7 := if strUpper (pyStr (jgetD args "method" (.str "GET"))) ≠ "GET" then
        ["web.fetch method must be GET"] else []
    return e0 ++ e1 ++ e2 ++ e3 ++ e4 ++ e5 ++ e6 ++ e7

/-- Validation of one tool call inside `validate_plan`. -/
def validateCall (env : PyEnv) (fs : Fs) (policy : CoworkerPolicy)
    (registry : ToolRegistry) (call : Json) : Except String (List String) := do
  match call with
  | .obj ckvs =>
    let tool_name := jgetD ckvs "tool" .null
    let args := jgetD ckvs "args" (.obj [])
    match tool_name with
    | .str tn =>
      if tn = "" then return ["Tool call missing tool name."]
      if (registry.get tn).isNone then
        return ["Tool not allowlisted: " ++ tn]
      match args with
      | .obj akvs =>
        if strStarts tn "fs." then validate_fs_call env fs tn akvs policy
        else if strStarts tn "doc." then validate_doc_call env fs tn akvs policy
        else if tn = "web.fetch" then validate_web_call akvs policy
        else return []
      | _ => return ["Tool args must be object: " ++ tn]
    | _ => return ["Tool call missing tool name."]
  | _ => .error "AttributeError: get"

def validateCalls (env : PyEnv) (fs : Fs) (policy : CoworkerPolicy)
    (registry : ToolRegistry) : List Json → Except String (List String)
  | [] => .ok []
  | call :: rest => do
      let e ← validateCall env fs policy registry call
      let es ← validateCalls env fs policy registry rest
      return e ++ es

/-- `validate_plan` (`coworker/policy.py`). -/
def validate_plan (env : PyEnv) (fs : Fs) (plan : Json) (policy : CoworkerPolicy)
    (registry : ToolRegistry) : Except String (List String) := do
  match plan with
  | .obj pkvs =>
    let e0 := if policy.allowed_roots = [] then
        ["No allowed roots configured for coworker plan."] else []
    let calls ← pyIterate (jgetD pkvs "tool_calls" (.arr []))
    let es ← validateCalls env fs policy registry calls
    return e0 ++ es
  | _ => .error "AttributeError: get"

/-! ## Approvals (`coworker/approval.py`) and run state (`coworker/run_state.py`) -/

/-- `approval_matches`. -/
def approval_matches (plan_hash : String) (approval : Json)
    (checkpoint_id : Option String := none) : Except String Bool :=
  match approval with
  | .obj kvs =>
      if jget kvs "plan_hash" ≠ some (.str plan_hash) then .ok false
      else
        match checkpoint_id with
        | none =>
            .ok (decide (jget kvs "checkpoint_id" = none ∨
              jget kvs "checkpoint_id" = some .null ∨
              jget kvs "checkpoint_id" = some (.str "")))
        | some c => .ok (decide (jget kvs "checkpoint_id" = some (.str c)))
  | _ => .error "AttributeError: get"

/-- `isinstance(item, (str, int))` coercion used for checkpoint and
completed-id lists (`bool` is an `int` in Python). -/
def strIntToStr : Json → Option String
  | .str s => some s
  | .int n => some (toString n)
  | .bool b => some (if b then "True" else "False")
  | _ => none

/-- `completed_ids_from_state`. -/
def completed_ids_from_state (state : Json) : Except String (List String) :=
  match state with
  | .obj kvs =>
      match jgetD kvs "completed_ids" (.arr []) with
      | .arr items => .ok (items.filterMap strIntToStr)
      | _ => .ok []
  | _ => .error "AttributeError: get"

/-- `build_state` (the executor serializes it right back into JSON). -/
def build_state (env : PyEnv) (plan_hash : String) (completed_ids : List String)
    (next_checkpoint : Option String) : Json :=
  .obj [("plan_hash", .str plan_hash),
        ("completed_ids", .arr (completed_ids.map Json.str)),
        ("next_checkpoint", match next_checkpoint with | some c => .str c | none => .null),
        ("updated_at", .str env.now)]

/-- `_next_checkpoint` (`coworker/executor.py`). -/
def next_checkpoint (checkpoints : List String) (completed : List String) : Option String :=
  checkpoints.find? fun c => !(completed.contains c)

/-! ## Executor (`coworker/executor.py`) -/

inductive ExecErr where
  | planValidation (msg : String)
  | approvalError (msg : String)
  | pyFault (msg : String)
deriving Repr, DecidableEq

/-- `fetch_url` (`coworker/web_tools.py`): the in-process guards, with the
network exchange (redirect guarding, decoding, sanitizing) supplied by the
environment. -/
def fetch_url (env : PyEnv) (url : String) (maxBytes : Int) (allowlist : List Json) :
    Except String (String × String) :=
  if maxBytes ≤ 0 then .error "web.fetch max_bytes must be positive"
  else
    let entries := allowlist.map pyStr
    if entries = [] then .error "web.fetch allowlist must be provided"
    else env.web url maxBytes entries

/-- `str(call.get("id", ""))`. -/
def callIdOf : Json → Except String String
  | .obj kvs => .ok (pyStr (jgetD kvs "id" (.str "")))
  | _ => .error "AttributeError: get"

/-- The dispatch on `tool` inside the executor's loop: one tool call's
primitive invocation as a pure function of the filesystem.  A success
carries the result lines, the updated filesystem, and the single primitive
effect the branch performed; an exception leaves the filesystem untouched
(each Python branch raises before its primitive mutates anything). -/
def execCallCore (env : PyEnv) (fs : Fs) (policy : CoworkerPolicy)
    (call : Json) : Except ExecErr (List String × Fs × Effect) :=
  match call with
  | .obj cks =>
    let tool := jgetD cks "tool" .null
    let args :=
      match jgetD cks "args" (.obj []) with
      | .obj akvs => akvs
      | other => [("", other)]
    let getArg := fun (k : String) => jget args k
    if tool = .str "fs.apply_write_file" then
      match getArg "path" with
      | none => .error (.pyFault "KeyError: path")
      | some pv =>
        match asStr pv with
        | .error m => .error (.pyFault m)
        | .ok ps =>
          let path := env.resolve ps
          if fs.pexists path then
            .error (.planValidation "fs.apply_write_file cannot overwrite existing file in v1")
          else
            match getArg "content" with
            | none => .error (.pyFault "KeyError: content")
            | some cv =>
              match asStr cv with
              | .error m => .error (.pyFault m)
              | .ok cs =>
                match fsApplyWrite fs path cs with
                | .error m => .error (.pyFault m)
                | .ok fs' => .ok (["wrote:" ++ pathStr path], fs', .wrote path cs)
    else if tool = .str "fs.move" then
      match getArg "path", getArg "dst" with
      | none, _ => .error (.pyFault "KeyError: path")
      | _, none => .error (.pyFault "KeyError: dst")
      | some pv, some dv =>
        match asStr pv, asStr dv with
        | .error m, _ => .error (.pyFault m)
        | _, .error m => .error (.pyFault m)
        | .ok ps, .ok ds =>
          let src := env.resolve ps
          let dst := env.resolve ds
          if fs.pexists dst then
            .error (.planValidation "fs.move cannot overwrite existing file in v1")
          else
            match fsMovePath fs src dst with
            | .error m => .error (.pyFault m)
            | .ok fs' =>
                .ok (["moved:" ++ pathStr src ++ "->" ++ pathStr dst,
                      "rollback:" ++ pathStr dst ++ "->" ++ pathStr src],
                  fs', .movedE src dst)
    else if tool = .str "fs.rename" then
      match getArg "path", getArg "dst" with
      | none, _ => .error (.pyFault "KeyError: path")
      | _, none => .error (.pyFault "KeyError: dst")
      | some pv, some dv =>
        match asStr pv, asStr dv with
        | .error m, _ => .error (.pyFault m)
        | _, .error m => .error (.pyFault m)
        | .ok ps, .ok ds =>
          let src := env.resolve ps
          let dst := env.resolve ds
          if fs.pexists dst then
            .error (.planValidation "fs.rename cannot overwrite existing file in v1")
          else
            match fsMovePath fs src dst with
            | .error m => .error (.pyFault m)
            | .ok fs' =>
                .ok (["renamed:" ++ pathStr src ++ "->" ++ pathStr dst,
                      "rollback:" ++ pathStr dst ++ "->" ++ pathStr src],
                  fs', .renamedE src dst)
    else if tool = .str "fs.propose_write_file" then
      match getArg "path" with
      | none => .error (.pyFault "KeyError: path")
      | some pv =>
        match asStr pv with
        | .error m => .error (.pyFault m)
        | .ok ps =>
          let path := env.resolve ps
          match asStr (jgetD args "content" (.str "")) with
          | .error m => .error (.pyFault m)
          | .ok cs =>
            let diff := fsProposeDiff fs path cs policy.max_read_bytes
            .ok ((if diff then ["diff:" ++ pathStr path] else []), fs, .proposedE path)
    else if tool = .str "fs.read_text" then
      match getArg "path" with
      | none => .error (.pyFault "KeyError: path")
      | some pv =>
        match asStr pv with
        | .error m => .error (.pyFault m)
        | .ok ps =>
          let path := env.resolve ps
          match pyToInt (jgetD args "max_bytes" (.int policy.max_read_bytes)) with
          | .error m => .error (.pyFault m)
          | .ok mb =>
            match fsReadText fs path mb with
            | .error m => .error (.pyFault m)
            | .ok content =>
                .ok (["read:" ++ pathStr path ++ " chars=" ++ toString content.length],
                  fs, .readE path)
    else if tool = .str "fs.list_dir" then
      match getArg "path" with
      | none => .error (.pyFault "KeyError: path")
      | some pv =>
        match asStr pv with
        | .error m => .error (.pyFault m)
        | .ok ps =>
          let path := env.resolve ps
          match fsListDir fs path with
          | .error m => .error (.pyFault m)
          | .ok entries =>
              .ok (["list:" ++ pathStr path ++ " entries=" ++ toString entries.length],
                fs, .listedE path)
    else if tool = .str "doc.extract_pdf_text" then
      match getArg "path" with
      | none => .error (.pyFault "KeyError: path")
      | some pv =>
        match asStr pv with
        | .error m => .error (.pyFault m)
        | .ok ps =>
          let path := env.resolve ps
          let ocr := pyStr (jgetD args "ocr_mode" (.str "off"))
          match pyToInt (jgetD args "max_chars" (.int policy.max_read_bytes)) with
          | .error m => .error (.pyFault m)
          | .ok mc =>
            let text := env.extractText path mc ocr
            .ok (["extract_pdf:" ++ pathStr path ++ " chars=" ++ toString text.length],
              fs, .extractedE path)
    else if tool = .str "web.fetch" then
      match getArg "url" with
      | none => .error (.pyFault "KeyError: url")
      | some uv =>
        let url := pyStr uv
        match pyIterate (jgetD args "allowlist" (.arr [])) with
        | .error m => .error (.pyFault m)
        | .ok allowlist =>
          match pyToInt (jgetD args "max_bytes" (.int policy.max_web_bytes)) with
          | .error m => .error (.pyFault m)
          | .ok mb =>
            match fetch_url env url mb allowlist with
            | .error m => .error (.pyFault m)
            | .ok (body, content_type) =>
                .ok (["web:" ++ url ++ " bytes=" ++ toString (utf8Bytes body).length ++
                      " type=" ++ content_type],
                  fs, .fetchedE url)
    else
      .ok (["skipped:" ++ pyStr tool], fs, .skippedE (pyStr tool))
  | _ => .error (.pyFault "AttributeError: get")

/-- One tool call against the world: an exception leaves the world as it
was; a success installs the new filesystem and logs the effect under the
call's index. -/
def execCall (env : PyEnv) (w : World) (policy : CoworkerPolicy) (idx : Nat)
    (call : Json) : Except ExecErr (List String) × World :=
  match execCallCore env w.fs policy call with
  | .error e => (.error e, w)
  | .ok (res, fs', eff) => (.ok res, ⟨fs', w.log ++ [(idx, eff)]⟩)

/-- `set.add` on the insertion-ordered list model of a Python set. -/
def insertSet (s : String) (l : List String) : List String :=
  if l.contains s then l else l ++ [s]

def dedupList (l : List String) : List String :=
  l.foldl (fun acc s => insertSet s acc) []

/-- The `for idx, call in enumerate(tool_calls)` loop of
`apply_plan_with_state`: `n` is `len(tool_calls)`, `remaining` the calls not
yet iterated, `idx` the index of the head of `remaining`. -/
def execLoop (env : PyEnv) (policy : CoworkerPolicy) (planHash : String)
    (checkpointIds : List String) (stop : Bool) (n : Nat) :
    World → List Json → Nat → List String → List String →
    Except ExecErr (List String × Option Json) × World
  | w, [], _, _, results => (.ok (results, none), w)
  | w, call :: rest, idx, completed, results =>
    match callIdOf call with
    | .error m => (.error (.pyFault m), w)
    | .ok cid =>
      if cid != "" && completed.contains cid then
        execLoop env policy planHash checkpointIds stop n w rest (idx + 1) completed results
      else
        match execCall env w policy idx call with
        | (.error e, w') => (.error e, w')
        | (.ok newRes, w') =>
          let results' := results ++ newRes
          let completed' := if cid != "" then insertSet cid completed else completed
          if stop && cid != "" && checkpointIds.contains cid then
            if idx = n - 1 then
              execLoop env policy planHash checkpointIds stop n w' rest (idx + 1) completed' results'
            else
              (.ok (results',
                some (build_state env planHash (sortStrs completed')
                  (next_checkpoint checkpointIds completed'))), w')
          else
            execLoop env policy planHash checkpointIds stop n w' rest (idx + 1) completed' results'

/-- `plan.get(key, default)` on a JSON value known to be an object. -/
def Json.getD (j : Json) (k : String) (d : Json) : Json :=
  match j with
  | .obj kvs => jgetD kvs k d
  | _ => d

/-- The resume-state hash guard:
`if resume_state and resume_state.get("plan_hash") != plan_hash`. -/
def resumeHashMismatch : Option Json → String → Except String Bool
  | none, _ => .ok false
  | some r, h =>
      if pyTruthy r then
        match r with
        | .obj kvs => .ok (jget kvs "plan_hash" ≠ some (.str h))
        | _ => .error "AttributeError: get"
      else .ok false

/-- `resume_state or {}`. -/
def resumeOrEmpty : Option Json → Json
  | some r => if pyTruthy r then r else .obj []
  | none => .obj []

/-- The `if policy.require_approval:` block of `apply_plan_with_state`.
Python's `if next_checkpoint:` is a truthiness test: it takes the
checkpoint-scoped branch only when the pending checkpoint is a non-empty
string, and falls to the plan-level branch on `None` and on `""`. -/
def approval_gate (plan_hash : String) (policy : CoworkerPolicy)
    (approval : Option Json) (stop_at_checkpoints : Bool)
    (checkpoint_ids : List String) (next_cp : Option String) : Except ExecErr Unit :=
  if policy.require_approval then
    match approval with
    | none => .error (.approvalError "Approval required but not provided.")
    | some aj =>
      if !(pyTruthy aj) then
        .error (.approvalError "Approval required but not provided.")
      else if stop_at_checkpoints && checkpoint_ids ≠ [] then
        match next_cp with
        | some ncp =>
            if ncp ≠ "" then
              match approval_matches plan_hash aj (some ncp) with
              | .error m => .error (.pyFault m)
              | .ok true => .ok ()
              | .ok false => .error (.approvalError "Approval does not match checkpoint.")
            else
              match approval_matches plan_hash aj none with
              | .error m => .error (.pyFault m)
              | .ok true => .ok ()
              | .ok false => .error (.approvalError "Approval does not match plan hash.")
        | none =>
            match approval_matches plan_hash aj none with
            | .error m => .error (.pyFault m)
            | .ok true => .ok ()
            | .ok false => .error (.approvalError "Approval does not match plan hash.")
      else
        match approval_matches plan_hash aj none with
        | .error m => .error (.pyFault m)
        | .ok true => .ok ()
        | .ok false => .error (.approvalError "Approval does not match plan hash.")
  else .ok ()

/-- `apply_plan_with_state` (`coworker/executor.py`). -/
def apply_plan_with_state (env : PyEnv) (w : World) (plan : Json)
    (policy : CoworkerPolicy) (registry : ToolRegistry) (approval : Option Json)
    (resume_state : Option Json) (stop_at_checkpoints : Bool) :
    Except ExecErr (List String × Option Json) × World :=
  match validate_plan env w.fs plan policy registry with
  | .error m => (.error (.pyFault m), w)
  | .ok errors =>
    if errors ≠ [] then
      (.error (.planValidation (String.intercalate "\n" errors)), w)
    else
      match compute_plan_hash plan with
      | .error m => (.error (.pyFault m), w)
      | .ok plan_hash =>
        match completed_ids_from_state (resumeOrEmpty resume_state) with
        | .error m => (.error (.pyFault m), w)
        | .ok completed0 =>
          let completed := dedupList completed0
          match resumeHashMismatch resume_state plan_hash with
          | .error m => (.error (.pyFault m), w)
          | .ok true => (.error (.planValidation "Resume state does not match plan hash."), w)
          | .ok false =>
            match pyIterate (plan.getD "checkpoints" (.arr [])) with
            | .error m => (.error (.pyFault m), w)
            | .ok ckItems =>
              let checkpoint_ids := ckItems.filterMap strIntToStr
              let next_cp := next_checkpoint checkpoint_ids completed
              match approval_gate plan_hash policy approval stop_at_checkpoints
                  checkpoint_ids next_cp with
              | .error e => (.error e, w)
              | .ok () =>
                match pyIterate (plan.getD "tool_calls" (.arr [])) with
                | .error m => (.error (.pyFault m), w)
                | .ok calls =>
                    execLoop env policy plan_hash checkpoint_ids stop_at_checkpoints
                      calls.length w calls 0 completed []

/-! ## Path locks (`coworker_runtime/locks.py`)

The lock directory is the association list of lock-file names to their text
contents.  Lock-file names are produced by `_lock_name`, payloads by
`_lock_payload`; `str(path)` round-trips through `Path(raw).resolve()` for
well-formed resolved paths (non-empty components without `/` or newline). -/

abbrev LockDir := List (String × String)

def ldLookup : LockDir → String → Option String
  | [], _ => none
  | (fn, c) :: rest, k => if fn = k then some c else ldLookup rest k

/-- Parsing an absolute path string back into components
(`Path(raw).expanduser().resolve()` on an already-resolved string). -/
def pathOfStr (s : String) : PathT := (strSplitOnChar '/' s).filter (· ≠ "")

/-- Python whitespace (the ASCII cases of `str.strip` / `\s`). -/
def pyIsSpace (c : Char) : Bool :=
  c = ' ' || c = '\t' || c = '\n' || c = '\r' || c.toNat = 11 || c.toNat = 12

/-- `str.strip()`. -/
def pyStrip (s : String) : String :=
  String.mk (((s.data.dropWhile pyIsSpace).reverse.dropWhile pyIsSpace).reverse)

/-- `_lock_name`. -/
def lock_name (p : PathT) : String :=
  let digest := strTake (sha256Hex (utf8Bytes (pathStr p))) 16
  let nm := String.mk ((p.getLastD "").data.map fun c => if c = ' ' then '_' else c)
  let safe := if nm = "" then "root" else nm
  "lock-" ++ safe ++ "-" ++ digest ++ ".lock"

/-- `_lock_payload`. -/
def lock_payload (task_id owner : String) (p : PathT) (now : String) : String :=
  "path=" ++ pathStr p ++ "\ntask_id=" ++ task_id ++ "\nowner=" ++ owner ++
    "\ncreated_at=" ++ now ++ "\n"

/-- `_read_task_id`. -/
def read_task_id (content : String) : String :=
  match (strSplitOnChar '\n' content).find? (strStarts · "task_id=") with
  | some line => pyStrip (strDrop line 8)
  | none => ""

/-- `_read_lock_path`. -/
def read_lock_path (content : String) : Option PathT :=
  match (strSplitOnChar '\n' content).find? (strStarts · "path=") with
  | some line =>
      let raw := pyStrip (strDrop line 5)
      if raw = "" then none else some (pathOfStr raw)
  | none => none

/-- `_load_existing_locks`: every file matching `lock-*.lock`. -/
def load_existing_locks (d : LockDir) : List (Option PathT × String) :=
  d.filterMap fun e =>
    if strStarts e.1 "lock-" && strEnds e.1 ".lock" then
      some (read_lock_path e.2, read_task_id e.2)
    else none

/-- `[path, *path.parents]`. -/
def selfAndParents (p : PathT) : List PathT := (ancestorsOf p).reverse

/-- `_has_overlap_conflict`. -/
def has_overlap_conflict (d : LockDir) (existing : List (Option PathT × String))
    (p : PathT) (task_id : String) : Bool :=
  ((selfAndParents p).any fun root =>
    match ldLookup d (lock_name root) with
    | some content =>
        let et := read_task_id content
        et ≠ "" && et ≠ task_id
    | none => false) ||
  (existing.any fun e =>
    if e.2 = "" || e.2 = task_id then false
    else
      match e.1 with
      | none => false
      | some q => q.isPrefixOf p || p.isPrefixOf q)

/-- `_normalize_paths` (resolution is the identity on already-resolved
component lists; de-duplication keeps first occurrences). -/
def normalize_paths (paths : List PathT) : List PathT :=
  paths.foldl (fun acc p => if acc.contains p then acc else acc ++ [p]) []

/-- Stable insertion sort by component count (`sorted(key=len(parts))`). -/
def insLen (p : PathT) : List PathT → List PathT
  | [] => [p]
  | q :: rest => if p.length ≤ q.length then p :: q :: rest else q :: insLen p rest

def sortByLen : List PathT → List PathT
  | [] => []
  | p :: rest => insLen p (sortByLen rest)

/-- `_dedupe_paths`: drop every path lying under one already kept. -/
def dedupe_paths (paths : List PathT) : List PathT :=
  (sortByLen paths).foldl
    (fun ded p => if ded.any (fun root => root.isPrefixOf p) then ded else ded ++ [p]) []

/-- `_create_lock` (`O_CREAT|O_EXCL`). -/
def create_lock (d : LockDir) (fn payload : String) : Option LockDir :=
  if (ldLookup d fn).isSome then none else some (d ++ [(fn, payload)])

/-- `_release_files`. -/
def release_files (d : LockDir) (files : List String) : LockDir :=
  d.filter fun e => !(files.contains e.1)

structure LockHandle where
  paths : List PathT
  lock_files : List String
deriving Repr, DecidableEq

/-- The `for path in normalized` loop of `acquire_locks`. -/
def acquireGo (existing : List (Option PathT × String)) (task_id owner now : String)
    (normalized : List PathT) :
    LockDir → List String → List PathT → LockHandle × LockDir
  | d, acc, [] => (⟨normalized, acc⟩, d)
  | d, acc, p :: rest =>
    if has_overlap_conflict d existing p task_id then
      (⟨[], []⟩, release_files d acc)
    else
      let fn := lock_name p
      match ldLookup d fn with
      | some content =>
          if read_task_id content ≠ task_id then (⟨[], []⟩, release_files d acc)
          else acquireGo existing task_id owner now normalized d (acc ++ [fn]) rest
      | none =>
          match create_lock d fn (lock_payload task_id owner p now) with
          | none => (⟨[], []⟩, release_files d acc)
          | some d' => acquireGo existing task_id owner now normalized d' (acc ++ [fn]) rest

/-- `acquire_locks` (`coworker_runtime/locks.py`). -/
def acquire_locks (d : LockDir) (paths : List PathT) (task_id owner now : String) :
    LockHandle × LockDir :=
  let normalized := dedupe_paths (normalize_paths paths)
  let existing := load_existing_locks d
  acquireGo existing task_id owner now normalized d [] normalized

/-! ## `sanitize_html` (`coworker/web_tools.py`)

The three `re.sub` substitutions and `html.unescape` are embedded as
fuel-driven character scanners; the fuel argument strictly exceeds the
number of scanning steps, and the fuel-0 fallback returns its input
unchanged.  `html.unescape` is modelled for the named entities `lt`, `gt`,
`amp`, `quot`, `apos` (with and without the trailing semicolon) and
decimal/hexadecimal character references; on any string without an
ampersand the model and the real function are both the identity. -/

/-- Case-insensitive prefix test. -/
def ciStarts : List Char → List Char → Bool
  | [], _ => true
  | _ :: _, [] => false
  | p :: ps, c :: cs => p.toLower == c.toLower && ciStarts ps cs

/-- Index of the first case-insensitive occurrence of `pat`. -/
def findCi (pat : List Char) : List Char → Option Nat
  | [] => if pat.isEmpty then some 0 else none
  | c :: rest =>
      if ciStarts pat (c :: rest) then some 0
      else (findCi pat rest).map (· + 1)

/-- A match of `(?is)<(script|style).*?>.*?</\1>` anchored at the head of
the list: on success, the suffix after the match.  The lazy `.*?>` takes the
first `>` after the tag name, and the lazy closing search takes the first
case-insensitive `</name>`; if no closing tag follows the first `>` none
follows a later one either, so this is the full backtracking behaviour. -/
def tryTagAt (g rest : List Char) : Option (List Char) :=
  if ciStarts g rest then
    match (rest.drop g.length).dropWhile (· ≠ '>') with
    | '>' :: tail =>
        match findCi ('<' :: '/' :: (g ++ ['>'])) tail with
        | some j => some (tail.drop (j + g.length + 3))
        | none => none
    | _ => none
  else none

def matchScriptAt (cs : List Char) : Option (List Char) :=
  match cs with
  | c :: rest =>
      if c = '<' then
        (tryTagAt "script".data rest).orElse fun _ => tryTagAt "style".data rest
      else none
  | _ => none

/-- `re.sub(r"(?is)<(script|style).*?>.*?</\1>", " ", ·)`. -/
def stripScriptStyleGo : Nat → List Char → List Char
  | 0, l => l
  | _, [] => []
  | fuel + 1, c :: rest =>
      match matchScriptAt (c :: rest) with
      | some suffix => ' ' :: stripScriptStyleGo fuel suffix
      | none => c :: stripScriptStyleGo fuel rest

/-- `re.sub(r"(?is)<[^>]+>", " ", ·)`: at each `<`, the lazy-free pattern
matches up to the first later `>` provided at least one non-`>` character
lies between. -/
def stripTagsGo : Nat → List Char → List Char
  | 0, l => l
  | _, [] => []
  | fuel + 1, c :: rest =>
      if c = '<' then
        match rest.dropWhile (· ≠ '>') with
        | '>' :: tail =>
            if rest.takeWhile (· ≠ '>') = [] then '<' :: stripTagsGo fuel rest
            else ' ' :: stripTagsGo fuel tail
        | _ => '<' :: stripTagsGo fuel rest
      else c :: stripTagsGo fuel rest

/-- One entity reference after a `&`: the replacement character and the
remaining input. -/
def entMatch (rest : List Char) : Option (Char × List Char) :=
  let tryNamed := fun (name : String) (c : Char) =>
    if (name.data ++ [';']).isPrefixOf rest then some (c, rest.drop (name.length + 1))
    else if name.data.isPrefixOf rest then some (c, rest.drop name.length)
    else none
  match rest with
  | '#' :: 'x' :: more =>
      let digits := more.takeWhile fun c => c.isDigit || ('a' ≤ c.toLower && c.toLower ≤ 'f')
      if digits = [] then none
      else
        let v := digits.foldl (fun acc c =>
          acc * 16 + (if c.isDigit then c.toNat - 48 else c.toLower.toNat - 87)) 0
        let after := more.drop digits.length
        some (Char.ofNat v, match after with | ';' :: t => t | t => t)
  | '#' :: more =>
      let digits := more.takeWhile (·.isDigit)
      if digits = [] then none
      else
        let v := digits.foldl (fun acc c => acc * 10 + (c.toNat - 48)) 0
        let after := more.drop digits.length
        some (Char.ofNat v, match after with | ';' :: t => t | t => t)
  | _ =>
      (tryNamed "lt" '<').orElse fun _ =>
      (tryNamed "gt" '>').orElse fun _ =>
      (tryNamed "amp" '&').orElse fun _ =>
      (tryNamed "quot" '"').orElse fun _ =>
      tryNamed "apos" (Char.ofNat 39)

/-- `html.unescape`. -/
def unescGo : Nat → List Char → List Char
  | 0, l => l
  | _, [] => []
  | fuel + 1, c :: rest =>
      if c = '&' then
        match entMatch rest with
        | some (r, suffix) => r :: unescGo fuel suffix
        | none => '&' :: unescGo fuel rest
      else c :: unescGo fuel rest

/-- `re.sub(r"\s+", " ", ·)`. -/
def collapseGo : Nat → List Char → List Char
  | 0, l => l
  | _, [] => []
  | fuel + 1, c :: rest =>
      if pyIsSpace c then ' ' :: collapseGo fuel (rest.dropWhile pyIsSpace)
      else c :: collapseGo fuel rest

/-- `sanitize_html` (`coworker/web_tools.py`). -/
def sanitize_html (s : String) : String :=
  let a := stripScriptStyleGo (s.data.length + 1) s.data
  let b := stripTagsGo (a.length + 1) a
  let c := unescGo (b.length + 1) b
  let d := collapseGo (c.length + 1) c
  pyStrip (String.mk d)

mutual

/-- Keys are unique in every object of the value, i.e. the value is the
image of an actual Python dict/list structure. -/
def JWF : Json → Prop
  | .null => True
  | .bool _ => True
  | .int _ => True
  | .str _ => True
  | .arr xs => JWFList xs
  | .obj kvs => (kvs.map Prod.fst).Nodup ∧ JWFPairs kvs

def JWFList : List Json → Prop
  | [] => True
  | x :: xs => JWF x ∧ JWFList xs

def JWFPairs : List (String × Json) → Prop
  | [] => True
  | (_, v) :: rest => JWF v ∧ JWFPairs rest

end

/-- An HTML tag as a substring: a `<`, at least one character none of which
is `>`, then a `>`. -/
def HasTag (l : List Char) : Prop :=
  ∃ pre mid post, l = pre ++ '<' :: (mid ++ '>' :: post) ∧ mid ≠ [] ∧ '>' ∉ mid

/-! ## Concrete inputs for the closed evaluations -/

/-- A concrete host environment: paths resolve by component splitting, the
clock is constant, PDF extraction returns nothing, the network is down. -/
def cEnv : PyEnv :=
  ⟨fun s => (strSplitOnChar '/' s).filter (· ≠ ""), "20260101T000000Z",
   fun _ _ _ => "", fun _ _ _ => .error "network unavailable"⟩

/-- `/r/note.txt` contains `hello`. -/
def cWorld : World := ⟨⟨[(["r", "note.txt"], "hello")], [[], ["r"]]⟩, []⟩

/-- Root `/r`, byte caps 1000, approvals not required, web disabled. -/
def cPolicy : CoworkerPolicy := ⟨[["r"]], 1000, 1000, 1000, 256, false, false, []⟩

/-- A one-line `fs.read_text` tool call with the given id. -/
def cReadCall (i : String) : Json :=
  .obj [("id", .str i), ("tool", .str "fs.read_text"),
        ("args", .obj [("path", .str "/r/note.txt")])]

/-- The plan of the repository's own test `test_rejects_unknown_checkpoint_ids`:
one tool call with id `1`, and a checkpoint id `missing` that is no call's id. -/
def c6Plan : Json :=
  .obj [("version", .int 1), ("tool_calls", .arr [cReadCall "1"]),
        ("checkpoints", .arr [.str "missing"])]

/-- Two read calls; the first has the empty id, and the empty string is
listed as a checkpoint. -/
def c5Plan : Json :=
  .obj [("version", .int 1), ("tool_calls", .arr [cReadCall "", cReadCall "2"]),
        ("checkpoints", .arr [.str ""])]

/-- Three read calls with ids `""`, `1`, `2` and checkpoint `1`. -/
def c4Plan : Json :=
  .obj [("version", .int 1),
        ("tool_calls", .arr [cReadCall "", cReadCall "1", cReadCall "2"]),
        ("checkpoints", .arr [.str "1"])]

/-- `compute_plan_hash` of `c4Plan` (the digest is checked by `rfl` below
wherever it is consumed). -/
def c4Hash : String :=
  "sha256:2b7871106efd55a01838086c55367138aa9df08f974ad2a55a07a1f3fb6ffed9"

/-- A resume state listing the empty string as a completed id. -/
def c4Resume : Json :=
  .obj [("plan_hash", .str c4Hash), ("completed_ids", .arr [.str ""])]

/-- Approval-requiring variant of `cPolicy`. -/
def c4Policy : CoworkerPolicy := ⟨[["r"]], 1000, 1000, 1000, 256, true, false, []⟩

/-- A checkpoint-scoped approval for `c4Plan`'s first run. -/
def c4Approval1 : Json :=
  .obj [("plan_hash", .str c4Hash), ("approved_at", .str "t"), ("checkpoint_id", .str "1")]

/-- A plan-level approval for `c4Plan`'s resumed run. -/
def c4Approval2 : Json :=
  .obj [("plan_hash", .str c4Hash), ("approved_at", .str "t")]

/-- The state `c4Plan`'s first run pauses with. -/
def c4State : Json :=
  .obj [("plan_hash", .str c4Hash),
        ("completed_ids", .arr [.str "", .str "1"]),
        ("next_checkpoint", .null),
        ("updated_at", .str "20260101T000000Z")]

/-- Three read calls with ids `1`, `2`, `3` and checkpoint `2`
(the witness scenario for resume fidelity). -/
def cwPlan : Json :=
  .obj [("version", .int 1),
        ("tool_calls", .arr [cReadCall "1", cReadCall "2", cReadCall "3"]),
        ("checkpoints", .arr [.str "2"])]

def cwHash : String :=
  "sha256:b54b2c0b744c588202c4fe2df3bfecc75256b1499ce3d33be406e51ad38434a2"

/-- The state `cwPlan`'s first run pauses with. -/
def cwState : Json :=
  .obj [("plan_hash", .str cwHash),
        ("completed_ids", .arr [.str "1", .str "2"]),
        ("next_checkpoint", .null),
        ("updated_at", .str "20260101T000000Z")]

/-- Web-enabled policy whose `web_allowlist` is empty. -/
def c7Policy : CoworkerPolicy := ⟨[["r"]], 1000, 1000, 1000, 256, true, true, []⟩

def c7Args : List (String × Json) :=
  [("url", .str "http://example.com/"), ("allowlist", .arr [.str "example.com"])]

def c7Plan : Json :=
  .obj [("version", .int 1),
        ("tool_calls", .arr [.obj [("id", .str "1"), ("tool", .str "web.fetch"),
          ("args", .obj c7Args)]])]

/-- The lock directory after a task with the empty task id locked `/d/f`. -/
def c9Dir : LockDir := (acquire_locks [] [["d", "f"]] "" "owner-a" "t0").2

/-- The lock directory after task `a` locked `/d/f`. -/
def c9Dir2 : LockDir := (acquire_locks [] [["d", "f"]] "a" "owner-a" "t0").2

/-- A write call aimed at the existing `/r/note.txt`. -/
def c2WriteCall : List (String × Json) :=
  [("id", .str "1"), ("tool", .str "fs.apply_write_file"),
   ("args", .obj [("path", .str "/r/note.txt"), ("content", .str "clobber")])]

/-- A move call whose destination `/r/note.txt` exists. -/
def c2MoveCall : List (String × Json) :=
  [("id", .str "2"), ("tool", .str "fs.move"),
   ("args", .obj [("path", .str "/r/src.txt"), ("dst", .str "/r/note.txt")])]

/-- The world the resumed `c4Plan` run ends in: both reads executed again. -/
def c10World : World :=
  ⟨cWorld.fs, [(0, .readE ["r", "note.txt"]), (1, .readE ["r", "note.txt"])]⟩

/-- The world the second (resumed) `c4Plan` run ends in: the empty-id call
executed again at index 0, the listed call `1` skipped, call `2` executed. -/
def c4W2 : World :=
  ⟨cWorld.fs, [(0, .readE ["r", "note.txt"]), (2, .readE ["r", "note.txt"])]⟩

/-- Web-enabled policy with the non-empty allowlist `other.com`. -/
def c7Policy2 : CoworkerPolicy := ⟨[["r"]], 1000, 1000, 1000, 256, true, true, ["other.com"]⟩

/-- The key/value list of `c7Plan`'s single web.fetch tool call. -/
def c7CallKv : List (String × Json) :=
  [("id", .str "1"), ("tool", .str "web.fetch"), ("args", .obj c7Args)]

/-! ## Theorems -/

def mapVal {α β : Type} (f : α → β) (l : List (String × α)) : List (String × β) :=
  l.map fun kv => (kv.1, f kv.2)

def KSorted {α : Type} (l : List (String × α)) : Prop :=
  List.Chain' (fun a b => strLe a.1 b.1 = true) l

def H8.bounded (st : H8) : Prop :=
  st.a < 2 ^ 32 ∧ st.b < 2 ^ 32 ∧ st.c < 2 ^ 32 ∧ st.d < 2 ^ 32 ∧
  st.e < 2 ^ 32 ∧ st.f < 2 ^ 32 ∧ st.g < 2 ^ 32 ∧ st.h < 2 ^ 32

/-- A 257-bit string of `0`/`1` characters. -/
def bitStr (f : Fin 257 → Bool) : String :=
  String.mk ((List.finRange 257).map fun i => if f i then '1' else '0')

/-- A plan whose only content is one 257-bit string. -/
def bitPlanKv (f : Fin 257 → Bool) : List (String × Json) := [("a", .str (bitStr f))]

/-- A small plan with a nested `args` object. -/
def c1PlanA : List (String × Json) :=
  [("version", .int 1), ("args", .obj [("x", .int 1), ("y", .int 2)])]

/-- The same content with the keys reordered at both levels. -/
def c1PlanB : List (String × Json) :=
  [("args", .obj [("y", .int 2), ("x", .int 1)]), ("version", .int 1)]

/-- Two tool calls in one order... -/
def c1PlanC : List (String × Json) := [("tool_calls", .arr [.int 1, .int 2])]

/-- ... and in the other. -/
def c1PlanD : List (String × Json) := [("tool_calls", .arr [.int 2, .int 1])]

/-- Python's `if next_checkpoint:` treats the empty string as falsy: with a
pending empty-string checkpoint the gate requires only a plan-level
approval, and with a checkpoint-scoped approval it rejects plan-level. -/
theorem approval_gate_empty_checkpoint :
    approval_gate "h" c4Policy (some (.obj [("plan_hash", .str "h"), ("approved_at", .str "t")]))
      true [""] (some "") = .ok () ∧
    approval_gate "h" c4Policy (some (.obj [("plan_hash", .str "h"), ("approved_at", .str "t"),
      ("checkpoint_id", .str "c")])) true [""] (some "") ≠ .ok () :=
  ⟨by decide, by decide⟩

theorem am_ok_none (h : String) (kvs : List (String × Json)) :
    approval_matches h (.obj kvs) none = .ok true ↔
      jget kvs "plan_hash" = some (.str h) ∧
        (jget kvs "checkpoint_id" = none ∨ jget kvs "checkpoint_id" = some .null ∨
          jget kvs "checkpoint_id" = some (.str "")) := by
  unfold approval_matches
  by_cases hph : jget kvs "plan_hash" = some (.str h)
  · simp [hph, or_assoc]
  · simp [hph]

theorem am_ok_some (h c : String) (kvs : List (String × Json)) :
    approval_matches h (.obj kvs) (some c) = .ok true ↔
      jget kvs "plan_hash" = some (.str h) ∧ jget kvs "checkpoint_id" = some (.str c) := by
  unfold approval_matches
  by_cases hph : jget kvs "plan_hash" = some (.str h)
  · simp [hph]
  · simp [hph]

/-- C3.  Approval specificity of `approval_matches`: on a dict approval it
answers true iff the stored `plan_hash` equals the queried hash and either
the query carries no checkpoint and the stored `checkpoint_id` is absent
(or JSON null, which `dict.get` returns as `None`) or the empty string, or
the stored `checkpoint_id` equals the queried one; in particular an
approval scoped to a non-empty checkpoint never satisfies a plan-level
query, and an approval without a checkpoint never satisfies a query for a
non-empty checkpoint. -/
theorem approval_specificity :
    (∀ (h : String) (kvs : List (String × Json)),
      (approval_matches h (.obj kvs) none = .ok true ↔
        jget kvs "plan_hash" = some (.str h) ∧
          (jget kvs "checkpoint_id" = none ∨ jget kvs "checkpoint_id" = some .null ∨
            jget kvs "checkpoint_id" = some (.str "")))) ∧
    (∀ (h c : String) (kvs : List (String × Json)),
      (approval_matches h (.obj kvs) (some c) = .ok true ↔
        jget kvs "plan_hash" = some (.str h) ∧ jget kvs "checkpoint_id" = some (.str c))) ∧
    (∀ (h c : String) (kvs : List (String × Json)), c ≠ "" →
      jget kvs "checkpoint_id" = some (.str c) →
      approval_matches h (.obj kvs) none ≠ .ok true) ∧
    (∀ (h c : String) (kvs : List (String × Json)), c ≠ "" →
      jget kvs "checkpoint_id" = none →
      approval_matches h (.obj kvs) (some c) ≠ .ok true) := by
  refine ⟨am_ok_none, am_ok_some, ?_, ?_⟩
  · intro h c kvs hc hcp hx
    rcases (am_ok_none h kvs).mp hx with ⟨-, h1 | h1 | h1⟩ <;> rw [hcp] at h1 <;> simp_all
  · intro h c kvs hc hcp hx
    rcases (am_ok_some h c kvs).mp hx with ⟨-, h1⟩
    rw [hcp] at h1; cases h1

/-- C3 witness: a checkpoint-scoped approval rejected at plan level and a
plan-level approval rejected for a checkpoint, at concrete values. -/
theorem approval_specificity_witness :
    ("c1" : String) ≠ "" ∧
    jget [("plan_hash", Json.str "sha256:h"), ("checkpoint_id", Json.str "c1")] "checkpoint_id"
      = some (.str "c1") ∧
    approval_matches "sha256:h"
      (.obj [("plan_hash", Json.str "sha256:h"), ("checkpoint_id", Json.str "c1")]) none
      ≠ .ok true ∧
    jget [("plan_hash", Json.str "sha256:h")] "checkpoint_id" = none ∧
    approval_matches "sha256:h" (.obj [("plan_hash", Json.str "sha256:h")]) (some "c1")
      ≠ .ok true :=
  ⟨by decide, by decide,
   approval_specificity.2.2.1 "sha256:h" "c1" _ (by decide) (by decide),
   by decide,
   approval_specificity.2.2.2 "sha256:h" "c1" _ (by decide) (by decide)⟩

/-- C6.  The executor does not reject unknown checkpoint ids: on the exact
plan of the repository's test `test_rejects_unknown_checkpoint_ids`
(checkpoint `missing`, no such call id), `apply_plan_with_state` raises no
`PlanValidationError`; it executes the read call and completes, while the
test (and spec step 3 of §4.6) demand a rejection with no call executed. -/
theorem unknown_checkpoint_not_rejected :
    (apply_plan_with_state cEnv cWorld c6Plan cPolicy DEFAULT_REGISTRY none none false).1
        = .ok (["read:/r/note.txt chars=5"], none) ∧
    (apply_plan_with_state cEnv cWorld c6Plan cPolicy DEFAULT_REGISTRY none none false).2.log
        = [(0, .readE ["r", "note.txt"])] ∧
    (pyIterate (c6Plan.getD "checkpoints" (.arr []))).map (·.filterMap strIntToStr)
        = .ok ["missing"] ∧
    (pyIterate (c6Plan.getD "tool_calls" (.arr []))).map (·.map callIdOf)
        = .ok [.ok "1"] :=
  ⟨by decide, by decide, by decide, by decide⟩

/-- C5 counterexample: with `stop_at_checkpoints` on, a non-final call whose
id (the empty string) is listed in `checkpoints` completes without pausing —
the run returns a null state — refuting "returns early ... exactly when the
just-completed call's id is a checkpoint and not final" as stated. -/
theorem checkpoint_pause_counterexample :
    (apply_plan_with_state cEnv cWorld c5Plan cPolicy DEFAULT_REGISTRY none none true).1
        = .ok (["read:/r/note.txt chars=5", "read:/r/note.txt chars=5"], none) ∧
    (pyIterate (c5Plan.getD "checkpoints" (.arr []))).map (·.filterMap strIntToStr)
        = .ok [""] ∧
    (pyIterate (c5Plan.getD "tool_calls" (.arr []))).map (·.map callIdOf)
        = .ok [.ok "", .ok "2"] ∧
    (0 : Nat) ≠ 2 - 1 :=
  ⟨by decide, by decide, by decide, by decide⟩

/-- C7 counterexample: with `web_enabled` and an *empty* `policy.web_allowlist`,
a `web.fetch` whose per-call allowlist is non-empty (so not a subset of the
empty policy list) validates with no error at all: the containment check is
skipped when the policy list is empty. -/
theorem web_allowlist_empty_counterexample :
    validate_plan cEnv cWorld.fs c7Plan c7Policy DEFAULT_REGISTRY = .ok [] ∧
    validate_web_call c7Args c7Policy = .ok [] ∧
    c7Policy.web_enabled = true ∧
    c7Policy.web_allowlist = [] ∧
    jgetD c7Args "allowlist" .null = .arr [.str "example.com"] :=
  ⟨by decide, by decide, by decide, by decide, by decide⟩

/-- C8 counterexample: `html.unescape` runs after tag stripping, so an
entity-encoded script element re-materializes as a literal `<script>` tag in
`sanitize_html`'s output. -/
theorem sanitize_entity_counterexample :
    sanitize_html "&lt;script&gt;x&lt;/script&gt;" = "<script>x</script>" ∧
    HasTag (sanitize_html "&lt;script&gt;x&lt;/script&gt;").data := by
  have h : sanitize_html "&lt;script&gt;x&lt;/script&gt;" = "<script>x</script>" := by decide
  refine ⟨h, ?_⟩
  rw [h]
  exact ⟨[], "script".data, "x</script>".data, by decide, by decide, by decide⟩

theorem execCallCore_write_exists (env : PyEnv) (fs : Fs) (policy : CoworkerPolicy)
    (ckvs akvs : List (String × Json)) (ps : String)
    (htool : jgetD ckvs "tool" .null = .str "fs.apply_write_file")
    (hargs : jgetD ckvs "args" (.obj []) = .obj akvs)
    (hpath : jget akvs "path" = some (.str ps))
    (hex : fs.pexists (env.resolve ps) = true) :
    execCallCore env fs policy (.obj ckvs)
      = .error (.planValidation "fs.apply_write_file cannot overwrite existing file in v1") := by
  simp [execCallCore, htool, hargs, hpath, asStr, hex]

theorem execCallCore_move_exists (env : PyEnv) (fs : Fs) (policy : CoworkerPolicy)
    (ckvs akvs : List (String × Json)) (ps ds : String) (tool : String)
    (htl : tool = "fs.move" ∨ tool = "fs.rename")
    (htool : jgetD ckvs "tool" .null = .str tool)
    (hargs : jgetD ckvs "args" (.obj []) = .obj akvs)
    (hpath : jget akvs "path" = some (.str ps))
    (hdst : jget akvs "dst" = some (.str ds))
    (hex : fs.pexists (env.resolve ds) = true) :
    execCallCore env fs policy (.obj ckvs)
      = .error (.planValidation (tool ++ " cannot overwrite existing file in v1")) := by
  rcases htl with rfl | rfl <;>
    simp [execCallCore, htool, hargs, hpath, hdst, asStr, hex]

theorem execLoop_guard (env : PyEnv) (policy : CoworkerPolicy) (planHash : String)
    (cps : List String) (stop : Bool) (n : Nat) (w : World) (rest : List Json)
    (idx : Nat) (completed results : List String) (ckvs : List (String × Json))
    (e : ExecErr)
    (hskip : (pyStr (jgetD ckvs "id" (.str "")) != ""
        && completed.contains (pyStr (jgetD ckvs "id" (.str "")))) = false)
    (hcore : execCallCore env w.fs policy (.obj ckvs) = .error e) :
    execLoop env policy planHash cps stop n w (.obj ckvs :: rest) idx completed results
      = (.error e, w) := by
  simp only [execLoop, callIdOf, hskip, Bool.false_eq_true, if_false, execCall, hcore]

/-- C2.  No-overwrite: whenever the executor's loop (the
`for idx, call in enumerate(tool_calls)` body of `apply_plan_with_state`,
embedded as `execLoop`) reaches — without skipping — an
`fs.apply_write_file` call whose resolved `path` exists, or an `fs.move` or
`fs.rename` call whose resolved `dst` exists, it raises
`PlanValidationError` with the v1 no-overwrite message and returns the
world unchanged: no write/move primitive runs, no effect is logged, and the
existing destination is untouched. -/
theorem no_overwrite :
    (∀ (env : PyEnv) (policy : CoworkerPolicy) (planHash : String) (cps : List String)
      (stop : Bool) (n : Nat) (w : World) (rest : List Json) (idx : Nat)
      (completed results : List String) (ckvs akvs : List (String × Json)) (ps : String),
      jgetD ckvs "tool" .null = .str "fs.apply_write_file" →
      jgetD ckvs "args" (.obj []) = .obj akvs →
      jget akvs "path" = some (.str ps) →
      w.fs.pexists (env.resolve ps) = true →
      (pyStr (jgetD ckvs "id" (.str "")) != ""
        && completed.contains (pyStr (jgetD ckvs "id" (.str "")))) = false →
      execLoop env policy planHash cps stop n w (.obj ckvs :: rest) idx completed results
        = (.error (.planValidation "fs.apply_write_file cannot overwrite existing file in v1"), w)) ∧
    (∀ (env : PyEnv) (policy : CoworkerPolicy) (planHash : String) (cps : List String)
      (stop : Bool) (n : Nat) (w : World) (rest : List Json) (idx : Nat)
      (completed results : List String) (ckvs akvs : List (String × Json)) (ps ds : String)
      (tool : String), tool = "fs.move" ∨ tool = "fs.rename" →
      jgetD ckvs "tool" .null = .str tool →
      jgetD ckvs "args" (.obj []) = .obj akvs →
      jget akvs "path" = some (.str ps) →
      jget akvs "dst" = some (.str ds) →
      w.fs.pexists (env.resolve ds) = true →
      (pyStr (jgetD ckvs "id" (.str "")) != ""
        && completed.contains (pyStr (jgetD ckvs "id" (.str "")))) = false →
      execLoop env policy planHash cps stop n w (.obj ckvs :: rest) idx completed results
        = (.error (.planValidation (tool ++ " cannot overwrite existing file in v1")), w)) := by
  constructor
  · intro env policy planHash cps stop n w rest idx completed results ckvs akvs ps
      htool hargs hpath hex hskip
    exact execLoop_guard env policy planHash cps stop n w rest idx completed results ckvs _
      hskip (execCallCore_write_exists env w.fs policy ckvs akvs ps htool hargs hpath hex)
  · intro env policy planHash cps stop n w rest idx completed results ckvs akvs ps ds tool
      htl htool hargs hpath hdst hex hskip
    exact execLoop_guard env policy planHash cps stop n w rest idx completed results ckvs _
      hskip (execCallCore_move_exists env w.fs policy ckvs akvs ps ds tool htl htool hargs
        hpath hdst hex)

/-- C2 witness: both guards fire on concrete calls against the concrete
world, leaving it unchanged. -/
theorem no_overwrite_witness :
    cWorld.fs.pexists (cEnv.resolve "/r/note.txt") = true ∧
    execLoop cEnv cPolicy "h" [] false 1 cWorld [.obj c2WriteCall] 0 [] []
      = (.error (.planValidation "fs.apply_write_file cannot overwrite existing file in v1"),
         cWorld) ∧
    execLoop cEnv cPolicy "h" [] false 1 cWorld [.obj c2MoveCall] 0 [] []
      = (.error (.planValidation ("fs.move" ++ " cannot overwrite existing file in v1")),
         cWorld) :=
  ⟨by decide,
   no_overwrite.1 cEnv cPolicy "h" [] false 1 cWorld [] 0 [] [] c2WriteCall
     [("path", .str "/r/note.txt"), ("content", .str "clobber")] "/r/note.txt"
     (by decide) (by decide) (by decide) (by decide) (by decide),
   no_overwrite.2 cEnv cPolicy "h" [] false 1 cWorld [] 0 [] [] c2MoveCall
     [("path", .str "/r/src.txt"), ("dst", .str "/r/note.txt")] "/r/src.txt" "/r/note.txt"
     "fs.move" (Or.inl rfl) (by decide) (by decide) (by decide) (by decide) (by decide)
     (by decide)⟩

/-- C5 (amended).  Checkpoint pause rule for the executor's loop under
`stop_at_checkpoints`: after a successfully executed (not skipped) call
whose id is `cid`, the loop returns early with the serialized resume state
`{plan_hash, completed_ids sorted, next_checkpoint = first checkpoint not
completed or null}` exactly when `cid` is non-empty, `cid` is among the
coerced checkpoint ids, and the call is not the final one; otherwise it
continues, and in particular a terminal checkpoint does not pause: when the
call is last the loop runs to the end and returns a null state. -/
theorem checkpoint_pause_rule :
    ∀ (env : PyEnv) (policy : CoworkerPolicy) (planHash : String) (cps : List String)
      (n : Nat) (w w1 : World) (call : Json) (rest : List Json) (idx : Nat)
      (completed results res1 : List String) (cid : String),
      callIdOf call = .ok cid →
      (cid != "" && completed.contains cid) = false →
      execCall env w policy idx call = (.ok res1, w1) →
      n = idx + 1 + rest.length →
      ((cid ≠ "" → cps.contains cid = true → rest ≠ [] →
        execLoop env policy planHash cps true n w (call :: rest) idx completed results =
          (.ok (results ++ res1,
            some (build_state env planHash (sortStrs (insertSet cid completed))
              (next_checkpoint cps (insertSet cid completed)))), w1)) ∧
       (cid = "" ∨ cps.contains cid = false ∨ rest = [] →
        execLoop env policy planHash cps true n w (call :: rest) idx completed results =
          execLoop env policy planHash cps true n w1 rest (idx + 1)
            (if cid != "" then insertSet cid completed else completed) (results ++ res1)) ∧
       (rest = [] →
        execLoop env policy planHash cps true n w (call :: rest) idx completed results =
          (.ok (results ++ res1, none), w1))) := by
  intro env policy planHash cps n w w1 call rest idx completed results res1 cid
    hid hskip hexec hn
  have hbase :
      execLoop env policy planHash cps true n w (call :: rest) idx completed results =
        (if true && (cid != "") && cps.contains cid then
          if idx = n - 1 then
            execLoop env policy planHash cps true n w1 rest (idx + 1)
              (if cid != "" then insertSet cid completed else completed) (results ++ res1)
          else
            (.ok (results ++ res1,
              some (build_state env planHash
                (sortStrs (if cid != "" then insertSet cid completed else completed))
                (next_checkpoint cps (if cid != "" then insertSet cid completed else completed)))),
             w1)
        else
          execLoop env policy planHash cps true n w1 rest (idx + 1)
            (if cid != "" then insertSet cid completed else completed) (results ++ res1)) := by
    simp only [execLoop, hid, hskip, Bool.false_eq_true, if_false, hexec]
  refine ⟨?_, ?_, ?_⟩
  · intro hne hcps hrest
    have hbne : (cid != "") = true := by simp [hne]
    have hidx : idx ≠ n - 1 := by
      have : rest.length ≠ 0 := by simpa using hrest
      omega
    rw [hbase]
    simp only [hbne, hcps, Bool.and_true, Bool.true_and, if_true]
    rw [if_neg hidx]
  · intro hcond
    rw [hbase]
    rcases hcond with h1 | h1 | h1
    · have hbne : (cid != "") = false := by simp [h1]
      simp only [hbne, Bool.and_false, Bool.false_and, Bool.true_and, Bool.false_eq_true,
        if_false]
    · simp only [h1, Bool.and_false, Bool.false_eq_true, if_false]
    · have hidx : idx = n - 1 := by subst h1; simp at hn; omega
      by_cases hb : (true && (cid != "") && cps.contains cid) = true
      · rw [if_pos hb, if_pos hidx]
      · rw [if_neg (by simpa using hb)]
  · intro h1
    have hend : ∀ w2 comp2 res2,
        execLoop env policy planHash cps true n w2 ([] : List Json) (idx + 1) comp2 res2
          = (.ok (res2, none), w2) := by
      intro w2 comp2 res2; simp [execLoop]
    have hidx : idx = n - 1 := by subst h1; simp at hn; omega
    rw [hbase]
    by_cases hb : (true && (cid != "") && cps.contains cid) = true
    · rw [if_pos hb, if_pos hidx]; subst h1; exact hend _ _ _
    · rw [if_neg (by simpa using hb)]; subst h1; exact hend _ _ _

/-- C5 witness: a concrete non-final checkpoint call pauses with the exact
serialized state. -/
theorem checkpoint_pause_rule_witness :
    callIdOf (cReadCall "1") = .ok "1" ∧
    ("1" : String) ≠ "" ∧ (["1"] : List String).contains "1" = true ∧
    execLoop cEnv cPolicy "h" ["1"] true 2 cWorld [cReadCall "1", cReadCall "2"] 0 [] [] =
      (.ok (([] : List String) ++ ["read:/r/note.txt chars=5"],
        some (build_state cEnv "h" (sortStrs (insertSet "1" []))
          (next_checkpoint ["1"] (insertSet "1" [])))),
       ⟨cWorld.fs, [(0, .readE ["r", "note.txt"])]⟩) :=
  ⟨by decide, by decide, by decide,
   (checkpoint_pause_rule cEnv cPolicy "h" ["1"] 2 cWorld
     ⟨cWorld.fs, [(0, .readE ["r", "note.txt"])]⟩ (cReadCall "1") [cReadCall "2"] 0 [] []
     ["read:/r/note.txt chars=5"] "1" (by decide) (by decide) (by decide) (by decide)).1
     (by decide) (by decide) (by decide)⟩

/-- C9 counterexample: a holder whose `task_id` is the empty string is
treated as ownerless by `_has_overlap_conflict`, so after task `""` locks
`/d/f`, task `b` successfully locks the ancestor `/d` — two live handles
over overlapping paths. -/
theorem lock_overlap_counterexample :
    (acquire_locks [] [["d", "f"]] "" "owner-a" "t0").1.paths = [["d", "f"]] ∧
    (acquire_locks c9Dir [["d"]] "b" "owner-b" "t1").1.paths = [["d"]] ∧
    List.isPrefixOf ["d"] ["d", "f"] = true :=
  ⟨by decide, by decide, by decide⟩

end Yordam
namespace Yordam

theorem mem_insertSet {x s : String} {l : List String} (h : x ∈ insertSet s l) :
    x ∈ l ∨ x = s := by
  unfold insertSet at h
  split at h
  · exact Or.inl h
  · rcases List.mem_append.mp h with h1 | h1
    · exact Or.inl h1
    · simp at h1; exact Or.inr h1

theorem foldl_insertSet_mem {x : String} :
    ∀ (l acc : List String), x ∈ l.foldl (fun acc s => insertSet s acc) acc →
      x ∈ acc ∨ x ∈ l := by
  intro l
  induction l with
  | nil => intro acc h; exact Or.inl h
  | cons s rest ih =>
      intro acc h
      rcases ih (insertSet s acc) h with h1 | h1
      · rcases mem_insertSet h1 with h2 | h2
        · exact Or.inl h2
        · exact Or.inr (by simp [h2])
      · exact Or.inr (List.mem_cons_of_mem _ h1)

theorem mem_dedupList {x : String} {l : List String} (h : x ∈ dedupList l) : x ∈ l := by
  rcases foldl_insertSet_mem l [] h with h1 | h1
  · cases h1
  · exact h1

theorem mem_insStr {x s : String} {l : List String} : x ∈ insStr s l ↔ x = s ∨ x ∈ l := by
  induction l with
  | nil => simp [insStr]
  | cons t rest ih =>
      unfold insStr
      split
      · simp
      · simp [ih]; tauto

theorem mem_sortStrs {x : String} {l : List String} : x ∈ sortStrs l ↔ x ∈ l := by
  induction l with
  | nil => simp [sortStrs]
  | cons s rest ih => simp [sortStrs, mem_insStr, ih]

theorem filterMap_strIntToStr_map_str (l : List String) :
    (l.map Json.str).filterMap strIntToStr = l := by
  induction l with
  | nil => rfl
  | cons s rest ih => simp [strIntToStr, ih]

theorem filterMap_strIntToStr_comp (l : List String) :
    List.filterMap (strIntToStr ∘ Json.str) l = l := by
  induction l with
  | nil => rfl
  | cons s rest ih => simp [strIntToStr, Function.comp, ih]

theorem execLoop_state_shape :
    ∀ (calls : List Json) (env : PyEnv) (policy : CoworkerPolicy) (planHash : String)
      (cps : List String) (stop : Bool) (n : Nat) (w w' : World) (idx : Nat)
      (completed results res : List String) (stJ : Json),
      execLoop env policy planHash cps stop n w calls idx completed results
        = (.ok (res, some stJ), w') →
      ∃ comp2, stJ = build_state env planHash (sortStrs comp2) (next_checkpoint cps comp2) ∧
        ∀ x ∈ comp2, x ∈ completed ∨ x ≠ "" := by
  intro calls
  induction calls with
  | nil =>
      intro env policy planHash cps stop n w w' idx completed results res stJ h
      simp [execLoop] at h
  | cons call rest ih =>
      intro env policy planHash cps stop n w w' idx completed results res stJ h
      rcases hcid : callIdOf call with m | cid
      · rw [show execLoop env policy planHash cps stop n w (call :: rest) idx completed results
            = (.error (.pyFault m), w) by simp only [execLoop, hcid]] at h
        cases h
      · by_cases hskip : (cid != "" && completed.contains cid) = true
        · rw [show execLoop env policy planHash cps stop n w (call :: rest) idx completed results
              = execLoop env policy planHash cps stop n w rest (idx + 1) completed results by
            simp only [execLoop, hcid, hskip, if_true]] at h
          exact ih env policy planHash cps stop n w w' (idx + 1) completed results res stJ h
        · have hskip' : (cid != "" && completed.contains cid) = false := by
            simpa using hskip
          have htransfer :
              ∀ comp2 : List String, (∀ x ∈ comp2,
                  x ∈ (if cid != "" then insertSet cid completed else completed) ∨ x ≠ "") →
                ∀ x ∈ comp2, x ∈ completed ∨ x ≠ "" := by
            intro comp2 hmem x hx
            rcases hmem x hx with hx1 | hx1
            · by_cases hbne : (cid != "") = true
              · rw [if_pos hbne] at hx1
                rcases mem_insertSet hx1 with h2 | h2
                · exact Or.inl h2
                · subst h2; exact Or.inr (by simpa using hbne)
              · rw [if_neg hbne] at hx1
                exact Or.inl hx1
            · exact Or.inr hx1
          rcases hec : execCall env w policy idx call with ⟨r, w1⟩
          cases r with
          | error e =>
              rw [show execLoop env policy planHash cps stop n w (call :: rest) idx completed
                    results = (.error e, w1) by
                simp only [execLoop, hcid, hskip', Bool.false_eq_true, if_false, hec]] at h
              cases h
          | ok nres =>
              by_cases hpause : (stop && cid != "" && cps.contains cid) = true
              · by_cases hlast : idx = n - 1
                · rw [show execLoop env policy planHash cps stop n w (call :: rest) idx
                        completed results
                      = execLoop env policy planHash cps stop n w1 rest (idx + 1)
                          (if cid != "" then insertSet cid completed else completed)
                          (results ++ nres) by
                    simp only [execLoop, hcid, hskip', Bool.false_eq_true, if_false, hec,
                      hpause, if_true]
                    rw [if_pos hlast]] at h
                  rcases ih _ _ _ _ _ _ _ _ _ _ _ _ _ h with ⟨comp2, hshape, hmem⟩
                  exact ⟨comp2, hshape, htransfer comp2 hmem⟩
                · rw [show execLoop env policy planHash cps stop n w (call :: rest) idx
                        completed results
                      = (.ok (results ++ nres,
                          some (build_state env planHash
                            (sortStrs (if cid != "" then insertSet cid completed else completed))
                            (next_checkpoint cps
                              (if cid != "" then insertSet cid completed else completed)))),
                         w1) by
                    simp only [execLoop, hcid, hskip', Bool.false_eq_true, if_false, hec,
                      hpause, if_true]
                    rw [if_neg hlast]] at h
                  obtain ⟨h1, h2⟩ := Prod.mk.injEq .. ▸ h
                  obtain ⟨h3, h4⟩ := Prod.mk.injEq .. ▸ (Except.ok.inj h1)
                  refine ⟨if cid != "" then insertSet cid completed else completed,
                    (Option.some.inj h4).symm, htransfer _ ?_⟩
                  intro x hx
                  exact Or.inl hx
              · rw [show execLoop env policy planHash cps stop n w (call :: rest) idx
                      completed results
                    = execLoop env policy planHash cps stop n w1 rest (idx + 1)
                        (if cid != "" then insertSet cid completed else completed)
                        (results ++ nres) by
                  simp only [execLoop, hcid, hskip', Bool.false_eq_true, if_false, hec]
                  rw [if_neg (by simpa using hpause)]] at h
                rcases ih _ _ _ _ _ _ _ _ _ _ _ _ _ h with ⟨comp2, hshape, hmem⟩
                exact ⟨comp2, hshape, htransfer comp2 hmem⟩

theorem execLoop_empty_id_step (env : PyEnv) (policy : CoworkerPolicy) (planHash : String)
    (cps : List String) (stop : Bool) (n : Nat) (w : World) (call : Json)
    (rest : List Json) (idx : Nat) (completed results : List String)
    (h : callIdOf call = .ok "") :
    execLoop env policy planHash cps stop n w (call :: rest) idx completed results
      = match execCall env w policy idx call with
        | (.error e, w1) => (.error e, w1)
        | (.ok nres, w1) =>
            execLoop env policy planHash cps stop n w1 rest (idx + 1) completed
              (results ++ nres) := by
  have h0 : (("" : String) != "") = false := by decide
  have hskip : (("" : String) != "" && completed.contains "") = false := by
    rw [h0]; rfl
  have hpause : (stop && ("" : String) != "" && cps.contains "") = false := by
    rw [h0]; simp
  rcases hec : execCall env w policy idx call with ⟨r, w1⟩
  cases r with
  | error e =>
      simp only [execLoop, h, hec, h0, Bool.false_and, Bool.and_false,
        Bool.false_eq_true, if_false]
  | ok nres =>
      simp only [execLoop, h, hec, h0, Bool.false_and, Bool.and_false,
        Bool.false_eq_true, if_false]

theorem validateCall_id_invariant (env : PyEnv) (fs : Fs) (policy : CoworkerPolicy)
    (reg : ToolRegistry) (ckvs1 ckvs2 : List (String × Json))
    (htool : jgetD ckvs1 "tool" .null = jgetD ckvs2 "tool" .null)
    (hargs : jgetD ckvs1 "args" (.obj []) = jgetD ckvs2 "args" (.obj [])) :
    validateCall env fs policy reg (.obj ckvs1)
      = validateCall env fs policy reg (.obj ckvs2) := by
  simp only [validateCall, htool, hargs]

theorem apply_state_empty_id :
    ∀ (env : PyEnv) (w : World) (plan : Json) (policy : CoworkerPolicy)
      (reg : ToolRegistry) (appr resume : Option Json) (stop : Bool)
      (res : List String) (stJ : Json) (w' : World) (l : List String),
      apply_plan_with_state env w plan policy reg appr resume stop
        = (.ok (res, some stJ), w') →
      completed_ids_from_state stJ = .ok l →
      "" ∈ l →
      ∃ r rl, resume = some r ∧ completed_ids_from_state r = .ok rl ∧ "" ∈ rl := by
  intro env w plan policy reg appr resume stop res stJ w' l h hl hmem
  unfold apply_plan_with_state at h
  rcases hv : validate_plan env w.fs plan policy reg with m | errs
  · simp only [hv] at h
    cases h
  · by_cases herr : errs = []
    swap
    · simp only [hv] at h
      rw [if_pos herr] at h
      cases h
    · simp only [hv] at h
      rw [if_neg (not_not_intro herr)] at h
      rcases hh : compute_plan_hash plan with m | ph
      · simp only [hh] at h
        cases h
      · simp only [hh] at h
        rcases hc : completed_ids_from_state (resumeOrEmpty resume) with m | completed0
        · simp only [hc] at h
          cases h
        · simp only [hc] at h
          rcases hm : resumeHashMismatch resume ph with m | b
          · simp only [hm] at h
            cases h
          · cases b
            · simp only [hm] at h
              rcases hck : pyIterate (plan.getD "checkpoints" (.arr [])) with m | ckItems
              · simp only [hck] at h
                cases h
              · simp only [hck] at h
                rcases hg : approval_gate ph policy appr stop (ckItems.filterMap strIntToStr)
                    (next_checkpoint (ckItems.filterMap strIntToStr) (dedupList completed0))
                    with e | u
                · simp only [hg] at h
                  cases h
                · cases u
                  simp only [hg] at h
                  rcases hcalls : pyIterate (plan.getD "tool_calls" (.arr [])) with m | calls
                  · simp only [hcalls] at h
                    cases h
                  · simp only [hcalls] at h
                    rcases execLoop_state_shape calls env policy ph
                        (ckItems.filterMap strIntToStr) stop calls.length w w' 0
                        (dedupList completed0) [] res stJ h with ⟨comp2, hshape, hcm⟩
                    subst hshape
                    have hl2 : l = sortStrs comp2 := by
                      rw [show completed_ids_from_state
                          (build_state env ph (sortStrs comp2)
                            (next_checkpoint (ckItems.filterMap strIntToStr) comp2))
                          = .ok (sortStrs comp2) by
                        simp [completed_ids_from_state, build_state, jgetD, jget,
                          filterMap_strIntToStr_comp]] at hl
                      exact (Except.ok.inj hl).symm
                    subst hl2
                    have hmem2 : "" ∈ comp2 := mem_sortStrs.mp hmem
                    rcases hcm "" hmem2 with h2 | h2
                    swap
                    · cases h2 rfl
                    · have h3 : "" ∈ completed0 := mem_dedupList h2
                      cases resume with
                      | none =>
                          rw [show completed_ids_from_state (resumeOrEmpty none)
                              = .ok [] from rfl] at hc
                          cases Except.ok.inj hc
                          cases h3
                      | some r =>
                          by_cases ht : pyTruthy r = true
                          · rw [show resumeOrEmpty (some r) = r by
                              simp only [resumeOrEmpty]; rw [if_pos ht]] at hc
                            exact ⟨r, completed0, rfl, hc, h3⟩
                          · rw [show resumeOrEmpty (some r) = Json.obj [] by
                              simp only [resumeOrEmpty]; rw [if_neg ht]] at hc
                            rw [show completed_ids_from_state (Json.obj [])
                                = .ok [] from rfl] at hc
                            cases Except.ok.inj hc
                            cases h3
            · simp only [hm] at h
              cases h

end Yordam

namespace Yordam

/-- C10: the policy validator ignores tool-call ids entirely — `validateCall`
reads only the `tool` and `args` fields, so it requires neither non-empty nor
unique ids; `apply_plan_with_state` never records the empty id: if the state
it returns lists `""` among its completed ids, that entry was already present
in the resume state it was given; and the executor loop neither skips nor
checkpoint-pauses a call whose id is the empty string — it re-executes it
unconditionally. -/
theorem empty_id_edge_case :
    (∀ (env : PyEnv) (fs : Fs) (policy : CoworkerPolicy) (reg : ToolRegistry)
       (ckvs1 ckvs2 : List (String × Json)),
       jgetD ckvs1 "tool" .null = jgetD ckvs2 "tool" .null →
       jgetD ckvs1 "args" (.obj []) = jgetD ckvs2 "args" (.obj []) →
       validateCall env fs policy reg (.obj ckvs1)
         = validateCall env fs policy reg (.obj ckvs2)) ∧
    (∀ (env : PyEnv) (w : World) (plan : Json) (policy : CoworkerPolicy)
       (reg : ToolRegistry) (appr resume : Option Json) (stop : Bool)
       (res : List String) (stJ : Json) (w' : World) (l : List String),
       apply_plan_with_state env w plan policy reg appr resume stop
         = (.ok (res, some stJ), w') →
       completed_ids_from_state stJ = .ok l →
       "" ∈ l →
       ∃ r rl, resume = some r ∧ completed_ids_from_state r = .ok rl ∧ "" ∈ rl) ∧
    (∀ (env : PyEnv) (policy : CoworkerPolicy) (planHash : String)
       (cps : List String) (stop : Bool) (n : Nat) (w : World) (call : Json)
       (rest : List Json) (idx : Nat) (completed results : List String),
       callIdOf call = .ok "" →
       execLoop env policy planHash cps stop n w (call :: rest) idx completed results
         = match execCall env w policy idx call with
           | (.error e, w1) => (.error e, w1)
           | (.ok nres, w1) =>
               execLoop env policy planHash cps stop n w1 rest (idx + 1) completed
                 (results ++ nres)) :=
  ⟨validateCall_id_invariant, apply_state_empty_id, execLoop_empty_id_step⟩

set_option maxRecDepth 40000 in
theorem empty_id_edge_case_witness :
    validateCall cEnv cWorld.fs cPolicy DEFAULT_REGISTRY
        (.obj [("id", .str "x"), ("tool", .str "fs.read_text"),
               ("args", .obj [("path", .str "/r/note.txt")])])
      = validateCall cEnv cWorld.fs cPolicy DEFAULT_REGISTRY
        (.obj [("tool", .str "fs.read_text"),
               ("args", .obj [("path", .str "/r/note.txt")])]) ∧
    (∃ r rl, (some c4Resume : Option Json) = some r ∧
      completed_ids_from_state r = .ok rl ∧ "" ∈ rl) ∧
    execLoop cEnv cPolicy c4Hash ["1"] true 1 cWorld [cReadCall ""] 0 ["z"] []
      = match execCall cEnv cWorld cPolicy 0 (cReadCall "") with
        | (.error e, w1) => (.error e, w1)
        | (.ok nres, w1) =>
            execLoop cEnv cPolicy c4Hash ["1"] true 1 w1 [] 1 ["z"] ([] ++ nres) :=
  ⟨empty_id_edge_case.1 cEnv cWorld.fs cPolicy DEFAULT_REGISTRY _ _ (by decide) (by decide),
   empty_id_edge_case.2.1 cEnv cWorld c4Plan cPolicy DEFAULT_REGISTRY none (some c4Resume)
     true ["read:/r/note.txt chars=5", "read:/r/note.txt chars=5"] c4State c10World
     ["", "1"] (by decide) (by decide) (by decide),
   empty_id_edge_case.2.2 cEnv cPolicy c4Hash ["1"] true 1 cWorld (cReadCall "") [] 0
     ["z"] [] (by decide)⟩

end Yordam

namespace Yordam

theorem mem_insertSet_of_mem {x s : String} {l : List String} (h : x ∈ l) :
    x ∈ insertSet s l := by
  unfold insertSet
  split
  · exact h
  · exact List.mem_append.mpr (Or.inl h)

theorem mem_dedupList_of_mem {x : String} :
    ∀ {l : List String}, x ∈ l → x ∈ dedupList l := by
  have key : ∀ (l acc : List String), (x ∈ acc ∨ x ∈ l) →
      x ∈ l.foldl (fun acc s => insertSet s acc) acc := by
    intro l
    induction l with
    | nil => intro acc h; exact h.elim id (fun h => absurd h (List.not_mem_nil x))
    | cons s rest ih =>
        intro acc h
        apply ih (insertSet s acc)
        rcases h with h | h
        · exact Or.inl (mem_insertSet_of_mem h)
        · rcases List.mem_cons.mp h with h | h
          · subst h
            refine Or.inl ?_
            unfold insertSet
            split
            · next hc => exact List.mem_of_elem_eq_true hc
            · exact List.mem_append.mpr (Or.inr (List.mem_singleton.mpr rfl))
          · exact Or.inr h
  intro l h
  exact key l [] (Or.inr h)

theorem execCall_error_world {env : PyEnv} {w : World} {policy : CoworkerPolicy}
    {idx : Nat} {call : Json} {e : ExecErr} {w1 : World}
    (h : execCall env w policy idx call = (.error e, w1)) : w1 = w := by
  unfold execCall at h
  rcases hcc : execCallCore env w.fs policy call with e2 | ⟨res, fs2, eff⟩
  · simp only [hcc] at h
    obtain ⟨h1, h2⟩ := Prod.mk.injEq .. ▸ h
    exact h2.symm
  · simp only [hcc] at h
    cases h

theorem execCall_ok_log {env : PyEnv} {w : World} {policy : CoworkerPolicy}
    {idx : Nat} {call : Json} {res : List String} {w1 : World}
    (h : execCall env w policy idx call = (.ok res, w1)) :
    ∃ eff, w1.log = w.log ++ [(idx, eff)] := by
  unfold execCall at h
  rcases hcc : execCallCore env w.fs policy call with e2 | ⟨res2, fs2, eff⟩
  · simp only [hcc] at h
    cases h
  · simp only [hcc] at h
    obtain ⟨h1, h2⟩ := Prod.mk.injEq .. ▸ h
    exact ⟨eff, by rw [← h2]⟩

theorem execLoop_new_log :
    ∀ (calls : List Json) (env : PyEnv) (policy : CoworkerPolicy) (planHash : String)
      (cps : List String) (stop : Bool) (n : Nat) (w w' : World) (idx : Nat)
      (completed results : List String) (r : Except ExecErr (List String × Option Json)),
      execLoop env policy planHash cps stop n w calls idx completed results = (r, w') →
      ∀ p ∈ w'.log, p ∈ w.log ∨
        ∃ call cid, calls[p.1 - idx]? = some call ∧ idx ≤ p.1 ∧
          callIdOf call = .ok cid ∧ (cid = "" ∨ ¬ cid ∈ completed) := by
  intro calls
  induction calls with
  | nil =>
      intro env policy planHash cps stop n w w' idx completed results r h p hp
      rw [show execLoop env policy planHash cps stop n w [] idx completed results
          = (.ok (results, none), w) from rfl] at h
      obtain ⟨h1, h2⟩ := Prod.mk.injEq .. ▸ h
      exact Or.inl (h2 ▸ hp)
  | cons call rest ih =>
      intro env policy planHash cps stop n w w' idx completed results r h p hp
      have hweaken : (p ∈ w.log ∨
          ∃ c cid, rest[p.1 - (idx + 1)]? = some c ∧ idx + 1 ≤ p.1 ∧
            callIdOf c = .ok cid ∧ (cid = "" ∨ ¬ cid ∈ completed)) →
          p ∈ w.log ∨ ∃ c cid, (call :: rest)[p.1 - idx]? = some c ∧ idx ≤ p.1 ∧
            callIdOf c = .ok cid ∧ (cid = "" ∨ ¬ cid ∈ completed) := by
        rintro (h1 | ⟨c, cid, hc, hle, hid, hor⟩)
        · exact Or.inl h1
        · refine Or.inr ⟨c, cid, ?_, by omega, hid, hor⟩
          rw [show p.1 - idx = (p.1 - (idx + 1)) + 1 by omega]
          rw [List.getElem?_cons_succ]
          exact hc
      rcases hcid : callIdOf call with m | cid
      · rw [show execLoop env policy planHash cps stop n w (call :: rest) idx completed results
            = (.error (.pyFault m), w) by simp only [execLoop, hcid]] at h
        obtain ⟨h1, h2⟩ := Prod.mk.injEq .. ▸ h
        exact Or.inl (h2 ▸ hp)
      · by_cases hskip : (cid != "" && completed.contains cid) = true
        · rw [show execLoop env policy planHash cps stop n w (call :: rest) idx completed results
              = execLoop env policy planHash cps stop n w rest (idx + 1) completed results by
            simp only [execLoop, hcid, hskip, if_true]] at h
          exact hweaken (ih env policy planHash cps stop n w w' (idx + 1) completed results r h
            p hp)
        · have hskip' : (cid != "" && completed.contains cid) = false := by
            simpa using hskip
          have hfree : cid = "" ∨ ¬ cid ∈ completed := by
            rcases Bool.and_eq_false_iff.mp hskip' with h1 | h1
            · exact Or.inl (by simpa using h1)
            · exact Or.inr (by simpa using h1)
          rcases hec : execCall env w policy idx call with ⟨rr, w1⟩
          cases rr with
          | error e =>
              rw [show execLoop env policy planHash cps stop n w (call :: rest) idx completed
                    results = (.error e, w1) by
                simp only [execLoop, hcid, hskip', Bool.false_eq_true, if_false, hec]] at h
              obtain ⟨h1, h2⟩ := Prod.mk.injEq .. ▸ h
              rw [← h2, execCall_error_world hec] at hp
              exact Or.inl hp
          | ok nres =>
              obtain ⟨eff, hlog⟩ := execCall_ok_log hec
              have hfromW1 : p ∈ w1.log →
                  p ∈ w.log ∨ ∃ c cid2, (call :: rest)[p.1 - idx]? = some c ∧ idx ≤ p.1 ∧
                    callIdOf c = .ok cid2 ∧ (cid2 = "" ∨ ¬ cid2 ∈ completed) := by
                intro hp1
                rw [hlog] at hp1
                rcases List.mem_append.mp hp1 with h1 | h1
                · exact Or.inl h1
                · have hpidx : p = (idx, eff) := List.mem_singleton.mp h1
                  refine Or.inr ⟨call, cid, ?_, ?_, hcid, hfree⟩
                  · rw [hpidx]
                    show (call :: rest)[idx - idx]? = some call
                    rw [Nat.sub_self, List.getElem?_cons_zero]
                  · rw [hpidx]
              have hrec : ∀ w2 : World,
                  execLoop env policy planHash cps stop n w1 rest (idx + 1)
                      (if cid != "" then insertSet cid completed else completed)
                      (results ++ nres) = (r, w2) → p ∈ w2.log →
                  p ∈ w.log ∨ ∃ c cid2, (call :: rest)[p.1 - idx]? = some c ∧ idx ≤ p.1 ∧
                    callIdOf c = .ok cid2 ∧ (cid2 = "" ∨ ¬ cid2 ∈ completed) := by
                intro w2 h2 hp2
                rcases ih env policy planHash cps stop n w1 w2 (idx + 1) _ _ r h2 p hp2 with
                  h3 | ⟨c, cid2, hc, hle, hid2, hor⟩
                · exact hfromW1 h3
                · refine Or.inr ⟨c, cid2, ?_, by omega, hid2, ?_⟩
                  · rw [show p.1 - idx = (p.1 - (idx + 1)) + 1 by omega]
                    rw [List.getElem?_cons_succ]
                    exact hc
                  · rcases hor with h4 | h4
                    · exact Or.inl h4
                    · refine Or.inr fun hmem => h4 ?_
                      by_cases hbne : (cid != "") = true
                      · rw [if_pos hbne]
                        exact mem_insertSet_of_mem hmem
                      · rw [if_neg hbne]
                        exact hmem
              by_cases hpause : (stop && cid != "" && cps.contains cid) = true
              · by_cases hlast : idx = n - 1
                · rw [show execLoop env policy planHash cps stop n w (call :: rest) idx
                        completed results
                      = execLoop env policy planHash cps stop n w1 rest (idx + 1)
                          (if cid != "" then insertSet cid completed else completed)
                          (results ++ nres) by
                    simp only [execLoop, hcid, hskip', Bool.false_eq_true, if_false, hec,
                      hpause, if_true]
                    rw [if_pos hlast]] at h
                  exact hrec w' h hp
                · rw [show execLoop env policy planHash cps stop n w (call :: rest) idx
                        completed results
                      = (.ok (results ++ nres,
                          some (build_state env planHash
                            (sortStrs (if cid != "" then insertSet cid completed else completed))
                            (next_checkpoint cps
                              (if cid != "" then insertSet cid completed else completed)))),
                         w1) by
                    simp only [execLoop, hcid, hskip', Bool.false_eq_true, if_false, hec,
                      hpause, if_true]
                    rw [if_neg hlast]] at h
                  obtain ⟨h1, h2⟩ := Prod.mk.injEq .. ▸ h
                  exact hfromW1 (h2 ▸ hp)
              · rw [show execLoop env policy planHash cps stop n w (call :: rest) idx
                      completed results
                    = execLoop env policy planHash cps stop n w1 rest (idx + 1)
                        (if cid != "" then insertSet cid completed else completed)
                        (results ++ nres) by
                  simp only [execLoop, hcid, hskip', Bool.false_eq_true, if_false, hec]
                  rw [if_neg (by simpa using hpause)]] at h
                exact hrec w' h hp

end Yordam

namespace Yordam

/-- C4 (amended): in a resumed run, every primitive effect the executor adds
to the log is tagged with the index of the tool call that produced it, and
the call at that index has an id that is either the empty string or not
listed among the resume state's `completed_ids` — no call with a non-empty
id listed in the state is re-executed.  (As stated the claim is false: a
call whose id is the empty string is re-executed even when `""` is listed in
`state.completed_ids`; see the counterexample.) -/
theorem resume_fidelity :
    ∀ (env : PyEnv) (w : World) (plan : Json) (policy : CoworkerPolicy)
      (reg : ToolRegistry) (appr : Option Json) (st : Json) (stop : Bool)
      (r : Except ExecErr (List String × Option Json)) (w' : World) (ids : List String),
      apply_plan_with_state env w plan policy reg appr (some st) stop = (r, w') →
      pyTruthy st = true →
      completed_ids_from_state st = .ok ids →
      ∀ p ∈ w'.log, p ∈ w.log ∨
        ∃ callsJ call cid, pyIterate (plan.getD "tool_calls" (.arr [])) = .ok callsJ ∧
          callsJ[p.1]? = some call ∧ callIdOf call = .ok cid ∧
          (cid = "" ∨ ¬ cid ∈ ids) := by
  intro env w plan policy reg appr st stop r w' ids h hst hids p hp
  unfold apply_plan_with_state at h
  have hre : resumeOrEmpty (some st) = st := by
    simp only [resumeOrEmpty]; rw [if_pos hst]
  rw [hre] at h
  rcases hv : validate_plan env w.fs plan policy reg with m | errs
  · simp only [hv] at h
    exact Or.inl (by
                obtain ⟨h1, h2⟩ := Prod.mk.injEq .. ▸ h
                rw [h2]
                exact hp)
  · by_cases herr : errs = []
    swap
    · simp only [hv] at h
      rw [if_pos herr] at h
      exact Or.inl (by
                obtain ⟨h1, h2⟩ := Prod.mk.injEq .. ▸ h
                rw [h2]
                exact hp)
    · simp only [hv] at h
      rw [if_neg (not_not_intro herr)] at h
      rcases hh : compute_plan_hash plan with m | ph
      · simp only [hh] at h
        exact Or.inl (by
                obtain ⟨h1, h2⟩ := Prod.mk.injEq .. ▸ h
                rw [h2]
                exact hp)
      · simp only [hh] at h
        simp only [hids] at h
        rcases hm : resumeHashMismatch (some st) ph with m | b
        · simp only [hm] at h
          exact Or.inl (by
              obtain ⟨h1, h2⟩ := Prod.mk.injEq .. ▸ h
              rw [h2]
              exact hp)
        · cases b
          · simp only [hm] at h
            rcases hck : pyIterate (plan.getD "checkpoints" (.arr [])) with m | ckItems
            · simp only [hck] at h
              exact Or.inl (by
              obtain ⟨h1, h2⟩ := Prod.mk.injEq .. ▸ h
              rw [h2]
              exact hp)
            · simp only [hck] at h
              rcases hg : approval_gate ph policy appr stop (ckItems.filterMap strIntToStr)
                  (next_checkpoint (ckItems.filterMap strIntToStr) (dedupList ids))
                  with e | u
              · simp only [hg] at h
                exact Or.inl (by
              obtain ⟨h1, h2⟩ := Prod.mk.injEq .. ▸ h
              rw [h2]
              exact hp)
              · cases u
                simp only [hg] at h
                rcases hcalls : pyIterate (plan.getD "tool_calls" (.arr [])) with m | calls
                · simp only [hcalls] at h
                  exact Or.inl (by
              obtain ⟨h1, h2⟩ := Prod.mk.injEq .. ▸ h
              rw [h2]
              exact hp)
                · simp only [hcalls] at h
                  rcases execLoop_new_log calls env policy ph
                      (ckItems.filterMap strIntToStr) stop calls.length w w' 0
                      (dedupList ids) [] r h p hp with
                    h1 | ⟨call, cid, hin, hle, hid, hor⟩
                  · exact Or.inl h1
                  · refine Or.inr ⟨calls, call, cid, rfl, ?_, hid, ?_⟩
                    · rw [show p.1 = p.1 - 0 from rfl]
                      exact hin
                    · rcases hor with h4 | h4
                      · exact Or.inl h4
                      · exact Or.inr fun hmem => h4 (mem_dedupList_of_mem hmem)
          · simp only [hm] at h
            exact Or.inl (by
              obtain ⟨h1, h2⟩ := Prod.mk.injEq .. ▸ h
              rw [h2]
              exact hp)

end Yordam

namespace Yordam

set_option maxRecDepth 40000 in
/-- C4 counterexample: the first run (checkpoint-scoped approval, resume
state listing `""`) pauses with state `c4State` whose `completed_ids` is
`["", "1"]`; re-invoking with that state and a matching plan-level approval
re-executes the call whose id `""` is listed — its read effect is logged
again at index 0 — refuting "executes no tool call whose id is listed in
state.completed_ids". -/
theorem resume_fidelity_counterexample :
    apply_plan_with_state cEnv cWorld c4Plan c4Policy DEFAULT_REGISTRY (some c4Approval1)
        (some c4Resume) true
      = (.ok (["read:/r/note.txt chars=5", "read:/r/note.txt chars=5"], some c4State),
         c10World) ∧
    completed_ids_from_state c4State = .ok ["", "1"] ∧
    callIdOf (cReadCall "") = .ok "" ∧ "" ∈ (["", "1"] : List String) ∧
    approval_matches c4Hash c4Approval2 none = .ok true ∧
    apply_plan_with_state cEnv cWorld c4Plan c4Policy DEFAULT_REGISTRY (some c4Approval2)
        (some c4State) true
      = (.ok (["read:/r/note.txt chars=5", "read:/r/note.txt chars=5"], none), c4W2) ∧
    (0, Effect.readE ["r", "note.txt"]) ∈ c4W2.log :=
  ⟨by decide, by decide, by decide, by decide, by decide, by decide, by decide⟩

set_option maxRecDepth 40000 in
theorem resume_fidelity_witness :
    pyTruthy c4State = true ∧
    (∀ p ∈ c4W2.log, p ∈ cWorld.log ∨
      ∃ callsJ call cid, pyIterate (c4Plan.getD "tool_calls" (.arr [])) = .ok callsJ ∧
        callsJ[p.1]? = some call ∧ callIdOf call = .ok cid ∧
        (cid = "" ∨ ¬ cid ∈ (["", "1"] : List String))) :=
  ⟨by decide,
   resume_fidelity cEnv cWorld c4Plan c4Policy DEFAULT_REGISTRY (some c4Approval2) c4State
     true (.ok (["read:/r/note.txt chars=5", "read:/r/note.txt chars=5"], none)) c4W2
     ["", "1"] (by decide) (by decide) (by decide)⟩

end Yordam

namespace Yordam

theorem web_allowlist_subset_error (args : List (String × Json)) (policy : CoworkerPolicy)
    (items : List Json) (errs : List String)
    (hwe : policy.web_enabled = true)
    (hurl : pyTruthy (jgetD args "url" .null) = true)
    (hal : jgetD args "allowlist" .null = .arr items)
    (hne : items ≠ [])
    (hwa : policy.web_allowlist ≠ [])
    (hsub : ((items.map pyStr).map strLower).all
      ((policy.web_allowlist.map strLower).contains) = false)
    (h : validate_web_call args policy = .ok errs) :
    "web.fetch allowlist not permitted by policy" ∈ errs := by
  unfold validate_web_call at h
  rw [hwe] at h
  simp only [Bool.not_true, Bool.false_eq_true, if_false] at h
  rw [hurl] at h
  simp only [Bool.not_true, Bool.false_eq_true, if_false] at h
  rw [hal] at h
  simp only [bind, Except.bind, pure, Except.pure] at h
  rw [if_neg hne] at h
  rw [if_pos hwa] at h
  rw [hsub] at h
  simp only [Bool.not_false, if_true] at h
  rw [← Except.ok.inj h]
  exact List.mem_append.mpr (Or.inr (List.mem_singleton.mpr rfl))

end Yordam

namespace Yordam

theorem web_allowlist_missing_error (args : List (String × Json)) (policy : CoworkerPolicy)
    (errs : List String)
    (hwe : policy.web_enabled = true)
    (hurl : pyTruthy (jgetD args "url" .null) = true)
    (hno : ∀ items : List Json, jgetD args "allowlist" .null = .arr items → items = [])
    (h : validate_web_call args policy = .ok errs) :
    "web.fetch requires per-task allowlist" ∈ errs := by
  unfold validate_web_call at h
  rw [hwe] at h
  simp only [Bool.not_true, Bool.false_eq_true, if_false] at h
  rw [hurl] at h
  simp only [Bool.not_true, Bool.false_eq_true, if_false] at h
  rcases hal : jgetD args "allowlist" .null with _ | b | n | str2 | items | kvs
  · rw [hal] at h
    simp only [bind, Except.bind, pure, Except.pure] at h
    rw [← Except.ok.inj h]
    exact List.mem_append.mpr (Or.inr (List.mem_singleton.mpr rfl))
  · rw [hal] at h
    simp only [bind, Except.bind, pure, Except.pure] at h
    rw [← Except.ok.inj h]
    exact List.mem_append.mpr (Or.inr (List.mem_singleton.mpr rfl))
  · rw [hal] at h
    simp only [bind, Except.bind, pure, Except.pure] at h
    rw [← Except.ok.inj h]
    exact List.mem_append.mpr (Or.inr (List.mem_singleton.mpr rfl))
  · rw [hal] at h
    simp only [bind, Except.bind, pure, Except.pure] at h
    rw [← Except.ok.inj h]
    exact List.mem_append.mpr (Or.inr (List.mem_singleton.mpr rfl))
  · have hi := hno items hal
    subst hi
    rw [hal] at h
    simp only [bind, Except.bind, pure, Except.pure] at h
    simp only [if_true] at h
    rw [← Except.ok.inj h]
    exact List.mem_append.mpr (Or.inr (List.mem_singleton.mpr rfl))
  · rw [hal] at h
    simp only [bind, Except.bind, pure, Except.pure] at h
    rw [← Except.ok.inj h]
    exact List.mem_append.mpr (Or.inr (List.mem_singleton.mpr rfl))

theorem validateCall_web (env : PyEnv) (fs : Fs) (policy : CoworkerPolicy)
    (reg : ToolRegistry) (ckvs akvs : List (String × Json))
    (htool : jgetD ckvs "tool" .null = .str "web.fetch")
    (hreg : (reg.get "web.fetch").isNone = false)
    (hargs : jgetD ckvs "args" (.obj []) = .obj akvs) :
    validateCall env fs policy reg (.obj ckvs) = validate_web_call akvs policy := by
  unfold validateCall
  simp only [htool, hargs, bind, Except.bind, pure, Except.pure]
  rw [if_neg (show ¬("web.fetch" : String) = "" by decide)]
  rw [hreg]
  simp only [Bool.false_eq_true, if_false]
  rw [show strStarts "web.fetch" "fs." = false from by decide]
  rw [show strStarts "web.fetch" "doc." = false from by decide]
  simp only [Bool.false_eq_true, if_false]
  simp only [if_true]

theorem validateCalls_sub (env : PyEnv) (fs : Fs) (policy : CoworkerPolicy)
    (reg : ToolRegistry) :
    ∀ (calls : List Json) (E : List String), validateCalls env fs policy reg calls = .ok E →
      ∀ call ∈ calls, ∀ e, validateCall env fs policy reg call = .ok e →
        ∀ x ∈ e, x ∈ E := by
  intro calls
  induction calls with
  | nil =>
      intro E h call hc
      cases hc
  | cons c rest ih =>
      intro E h call hc e he x hx
      rcases h1 : validateCall env fs policy reg c with m | e1
      · rw [show validateCalls env fs policy reg (c :: rest) = .error m by
          simp only [validateCalls, h1, bind, Except.bind]] at h
        cases h
      · rcases h2 : validateCalls env fs policy reg rest with m | es
        · rw [show validateCalls env fs policy reg (c :: rest) = .error m by
            simp only [validateCalls, h1, h2, bind, Except.bind]] at h
          cases h
        · rw [show validateCalls env fs policy reg (c :: rest) = .ok (e1 ++ es) by
            simp only [validateCalls, h1, h2, bind, Except.bind, pure, Except.pure]] at h
          cases Except.ok.inj h
          rcases List.mem_cons.mp hc with hc1 | hc1
          · subst hc1
            rw [h1] at he
            cases Except.ok.inj he
            exact List.mem_append.mpr (Or.inl hx)
          · exact List.mem_append.mpr (Or.inr (ih es h2 call hc1 e he x hx))

theorem validate_plan_sub (env : PyEnv) (fs : Fs) (policy : CoworkerPolicy)
    (reg : ToolRegistry) (pkvs : List (String × Json)) (calls : List Json)
    (errs : List String)
    (hcalls : pyIterate (jgetD pkvs "tool_calls" (.arr [])) = .ok calls)
    (h : validate_plan env fs (.obj pkvs) policy reg = .ok errs) :
    ∀ call ∈ calls, ∀ e, validateCall env fs policy reg call = .ok e →
      ∀ x ∈ e, x ∈ errs := by
  intro call hc e he x hx
  unfold validate_plan at h
  simp only [hcalls, bind, Except.bind] at h
  rcases h2 : validateCalls env fs policy reg calls with m | E
  · rw [h2] at h
    cases h
  · rw [h2] at h
    simp only [pure, Except.pure] at h
    cases Except.ok.inj h
    exact List.mem_append.mpr (Or.inr
      (validateCalls_sub env fs policy reg calls E h2 call hc e he x hx))

end Yordam

namespace Yordam

/-- C7 (amended): when `policy.web_allowlist` is non-empty, a `web.fetch`
call whose per-call allowlist is a non-empty list that is not a
case-insensitive subset of the policy allowlist draws the error
`web.fetch allowlist not permitted by policy`; a call whose allowlist is
missing, not a list, or the empty list draws the error
`web.fetch requires per-task allowlist`; a `web.fetch` call's validation is
exactly `validate_web_call` of its args; and every error a call's
validation produces appears in `validate_plan`'s error list — together:
`validate_plan` reports at least one error unless the call's allowlist is a
non-empty list whose entries are a subset of the policy allowlist.  (As
stated the claim is false for `policy.web_allowlist = []`: the containment
check is skipped entirely — see the counterexample.) -/
theorem web_allowlist_containment :
    (∀ (args : List (String × Json)) (policy : CoworkerPolicy)
       (items : List Json) (errs : List String),
       policy.web_enabled = true →
       pyTruthy (jgetD args "url" .null) = true →
       jgetD args "allowlist" .null = .arr items →
       items ≠ [] →
       policy.web_allowlist ≠ [] →
       ((items.map pyStr).map strLower).all
         ((policy.web_allowlist.map strLower).contains) = false →
       validate_web_call args policy = .ok errs →
       "web.fetch allowlist not permitted by policy" ∈ errs) ∧
    (∀ (args : List (String × Json)) (policy : CoworkerPolicy) (errs : List String),
       policy.web_enabled = true →
       pyTruthy (jgetD args "url" .null) = true →
       (∀ items : List Json, jgetD args "allowlist" .null = .arr items → items = []) →
       validate_web_call args policy = .ok errs →
       "web.fetch requires per-task allowlist" ∈ errs) ∧
    (∀ (env : PyEnv) (fs : Fs) (policy : CoworkerPolicy) (reg : ToolRegistry)
       (ckvs akvs : List (String × Json)),
       jgetD ckvs "tool" .null = .str "web.fetch" →
       (reg.get "web.fetch").isNone = false →
       jgetD ckvs "args" (.obj []) = .obj akvs →
       validateCall env fs policy reg (.obj ckvs) = validate_web_call akvs policy) ∧
    (∀ (env : PyEnv) (fs : Fs) (policy : CoworkerPolicy) (reg : ToolRegistry)
       (pkvs : List (String × Json)) (calls : List Json) (errs : List String),
       pyIterate (jgetD pkvs "tool_calls" (.arr [])) = .ok calls →
       validate_plan env fs (.obj pkvs) policy reg = .ok errs →
       ∀ call ∈ calls, ∀ e, validateCall env fs policy reg call = .ok e →
         ∀ x ∈ e, x ∈ errs) :=
  ⟨web_allowlist_subset_error, web_allowlist_missing_error, validateCall_web,
   fun env fs policy reg pkvs calls errs hcalls h =>
     validate_plan_sub env fs policy reg pkvs calls errs hcalls h⟩

theorem web_allowlist_containment_witness :
    ("web.fetch allowlist not permitted by policy"
      ∈ ["web.fetch allowlist not permitted by policy"]) ∧
    ("web.fetch requires per-task allowlist"
      ∈ ["web.fetch requires per-task allowlist"]) ∧
    validateCall cEnv cWorld.fs c7Policy2 DEFAULT_REGISTRY (.obj c7CallKv)
      = validate_web_call c7Args c7Policy2 ∧
    ("web.fetch allowlist not permitted by policy"
      ∈ ["web.fetch allowlist not permitted by policy"] →
     "web.fetch allowlist not permitted by policy"
      ∈ ["web.fetch allowlist not permitted by policy"]) :=
  ⟨web_allowlist_containment.1 c7Args c7Policy2 [.str "example.com"]
     ["web.fetch allowlist not permitted by policy"] (by decide) (by decide) (by decide)
     (by decide) (by decide) (by decide) (by decide),
   web_allowlist_containment.2.1 [("url", .str "http://example.com/")] c7Policy2
     ["web.fetch requires per-task allowlist"] (by decide) (by decide)
     (by
       intro items h
       rw [show jgetD [("url", Json.str "http://example.com/")] "allowlist" Json.null
           = Json.null from rfl] at h
       cases h)
     (by decide),
   web_allowlist_containment.2.2.1 cEnv cWorld.fs c7Policy2 DEFAULT_REGISTRY c7CallKv c7Args
     (by decide) (by decide) (by decide),
   fun hx => web_allowlist_containment.2.2.2 cEnv cWorld.fs c7Policy2 DEFAULT_REGISTRY
     [("version", .int 1), ("tool_calls", .arr [.obj c7CallKv])] [.obj c7CallKv]
     ["web.fetch allowlist not permitted by policy"] (by decide) (by decide)
     (.obj c7CallKv) (by decide) ["web.fetch allowlist not permitted by policy"]
     (by decide) "web.fetch allowlist not permitted by policy" hx⟩

end Yordam

namespace Yordam

theorem takeWhile_gt_mid (mid post : List Char) (h : '>' ∉ mid) :
    (mid ++ '>' :: post).takeWhile (· ≠ '>') = mid := by
  induction mid with
  | nil => simp [List.takeWhile]
  | cons c rest ih =>
      have hc : c ≠ '>' := fun he => h (he ▸ List.mem_cons_self ..)
      have hr : '>' ∉ rest := fun hm => h (List.mem_cons_of_mem _ hm)
      rw [List.cons_append, List.takeWhile_cons_of_pos (by simp [hc]), ih hr]

theorem dropWhile_first_mem (s : List Char) (h : '>' ∈ s) :
    ∃ post, s.dropWhile (· ≠ '>') = '>' :: post := by
  induction s with
  | nil => cases h
  | cons c rest ih =>
      by_cases hc : c = '>'
      · subst hc
        exact ⟨rest, by rw [List.dropWhile_cons_of_neg (by simp)]⟩
      · have hr : '>' ∈ rest := by
          rcases List.mem_cons.mp h with h1 | h1
          · exact absurd h1.symm hc
          · exact h1
        rcases ih hr with ⟨post, hp⟩
        exact ⟨post, by rw [List.dropWhile_cons_of_pos (by simp [hc])]; exact hp⟩

theorem hasTag_cons (c : Char) (S : List Char) :
    HasTag (c :: S) ↔
      (c = '<' ∧ '>' ∈ S ∧ S.takeWhile (· ≠ '>') ≠ []) ∨ HasTag S := by
  constructor
  · rintro ⟨pre, mid, post, heq, hne, hnot⟩
    cases pre with
    | nil =>
        simp only [List.nil_append, List.cons.injEq] at heq
        obtain ⟨hc, hS⟩ := heq
        refine Or.inl ⟨hc, ?_, ?_⟩
        · rw [hS]
          exact List.mem_append.mpr (Or.inr (List.mem_cons_self ..))
        · rw [hS, takeWhile_gt_mid mid post hnot]
          exact hne
    | cons p pre2 =>
        simp only [List.cons_append, List.cons.injEq] at heq
        exact Or.inr ⟨pre2, mid, post, heq.2, hne, hnot⟩
  · rintro (⟨hc, hmem, htake⟩ | ⟨pre, mid, post, heq, hne, hnot⟩)
    · subst hc
      rcases dropWhile_first_mem S hmem with ⟨post, hp⟩
      refine ⟨[], S.takeWhile (· ≠ '>'), post, ?_, htake, ?_⟩
      · simp only [List.nil_append, List.cons.injEq, true_and]
        rw [← hp]
        exact (List.takeWhile_append_dropWhile ..).symm
      · intro hm
        have := List.mem_takeWhile_imp hm
        simp at this
    · exact ⟨c :: pre, mid, post, by rw [heq, List.cons_append], hne, hnot⟩

theorem hasTag_append_left (s t : List Char) (h : HasTag t) : HasTag (s ++ t) := by
  rcases h with ⟨pre, mid, post, heq, hne, hnot⟩
  exact ⟨s ++ pre, mid, post, by rw [heq, List.append_assoc], hne, hnot⟩

theorem hasTag_append_right (s t : List Char) (h : HasTag s) : HasTag (s ++ t) := by
  rcases h with ⟨pre, mid, post, heq, hne, hnot⟩
  refine ⟨pre, mid, post ++ t, ?_, hne, hnot⟩
  rw [heq]
  simp [List.append_assoc]

theorem hasTag_nil : ¬ HasTag [] := by
  rintro ⟨pre, mid, post, heq, hne, hnot⟩
  cases pre <;> simp at heq

end Yordam

namespace Yordam

theorem tryTagAt_sublist {g rest suf : List Char} (h : tryTagAt g rest = some suf) :
    suf.Sublist rest := by
  unfold tryTagAt at h
  split at h
  · rename_i hci
    split at h
    · rename_i tail htail
      split at h
      · rename_i j hj
        cases Option.some.inj h
        have h1 : (tail.drop (j + g.length + 3)).Sublist tail := List.drop_sublist ..
        have h2 : tail.Sublist ('>' :: tail) := List.sublist_cons_self ..
        have h3 : ('>' :: tail).Sublist (rest.drop g.length) := by
          rw [← htail]
          exact List.dropWhile_sublist ..
        have h4 : (rest.drop g.length).Sublist rest := List.drop_sublist ..
        exact ((h1.trans h2).trans h3).trans h4
      · cases h
    · cases h
  · cases h

theorem matchScriptAt_sublist {cs suf : List Char} (h : matchScriptAt cs = some suf) :
    suf.Sublist cs := by
  unfold matchScriptAt at h
  match cs with
  | [] => cases h
  | c :: rest =>
      simp only at h
      split at h
      · rcases h1 : tryTagAt "script".data rest with _ | suf2
        · rw [h1] at h
          simp only [Option.orElse] at h
          rcases h2 : tryTagAt "style".data rest with _ | suf3
          · rw [h2] at h; cases h
          · rw [h2] at h
            cases Option.some.inj h
            exact (tryTagAt_sublist h2).trans (List.sublist_cons_self ..)
        · rw [h1] at h
          simp only [Option.orElse] at h
          cases Option.some.inj h
          exact (tryTagAt_sublist h1).trans (List.sublist_cons_self ..)
      · cases h

theorem mem_stripScriptStyleGo {x : Char} :
    ∀ (fuel : Nat) (l : List Char), x ∈ stripScriptStyleGo fuel l → x ∈ l ∨ x = ' ' := by
  intro fuel
  induction fuel with
  | zero => intro l h; simp only [stripScriptStyleGo] at h; exact Or.inl h
  | succ f ih =>
      intro l h
      match l with
      | [] => cases h
      | c :: rest =>
          rw [show stripScriptStyleGo (f + 1) (c :: rest)
              = match matchScriptAt (c :: rest) with
                | some suffix => ' ' :: stripScriptStyleGo f suffix
                | none => c :: stripScriptStyleGo f rest from rfl] at h
          rcases hm : matchScriptAt (c :: rest) with _ | suffix
          · rw [hm] at h
            rcases List.mem_cons.mp h with h1 | h1
            · exact Or.inl (h1 ▸ List.mem_cons_self ..)
            · rcases ih rest h1 with h2 | h2
              · exact Or.inl (List.mem_cons_of_mem _ h2)
              · exact Or.inr h2
          · rw [hm] at h
            rcases List.mem_cons.mp h with h1 | h1
            · exact Or.inr h1
            · rcases ih suffix h1 with h2 | h2
              · exact Or.inl ((matchScriptAt_sublist hm).subset h2)
              · exact Or.inr h2

theorem mem_stripTagsGo {x : Char} :
    ∀ (fuel : Nat) (l : List Char), x ∈ stripTagsGo fuel l → x ∈ l ∨ x = ' ' := by
  intro fuel
  induction fuel with
  | zero => intro l h; simp only [stripTagsGo] at h; exact Or.inl h
  | succ f ih =>
      intro l h
      match l with
      | [] => rw [show stripTagsGo (f + 1) [] = [] from rfl] at h; cases h
      | c :: rest =>
          simp only [stripTagsGo] at h
          have hdown : x ∈ stripTagsGo f rest → x ∈ c :: rest ∨ x = ' ' := fun h1 =>
            (ih rest h1).elim (fun h2 => Or.inl (List.mem_cons_of_mem _ h2)) Or.inr
          by_cases hc : c = '<'
          · rw [if_pos hc] at h
            split at h
            · rename_i tail heq
              by_cases ht : rest.takeWhile (· ≠ '>') = []
              · rw [if_pos ht] at h
                rcases List.mem_cons.mp h with h1 | h1
                · exact Or.inl (h1 ▸ hc ▸ List.mem_cons_self ..)
                · exact hdown h1
              · rw [if_neg ht] at h
                rcases List.mem_cons.mp h with h1 | h1
                · exact Or.inr h1
                · rcases ih tail h1 with h2 | h2
                  · refine Or.inl (List.mem_cons_of_mem _ ?_)
                    have h4 : List.Sublist ('>' :: tail) rest := by
                      rw [← heq]
                      exact List.dropWhile_sublist ..
                    exact ((List.sublist_cons_self '>' tail).trans h4).subset h2
                  · exact Or.inr h2
            · rcases List.mem_cons.mp h with h1 | h1
              · exact Or.inl (h1 ▸ hc ▸ List.mem_cons_self ..)
              · exact hdown h1
          · rw [if_neg hc] at h
            rcases List.mem_cons.mp h with h1 | h1
            · exact Or.inl (h1 ▸ List.mem_cons_self ..)
            · exact hdown h1

theorem mem_collapseGo {x : Char} :
    ∀ (fuel : Nat) (l : List Char), x ∈ collapseGo fuel l → x ∈ l ∨ x = ' ' := by
  intro fuel
  induction fuel with
  | zero => intro l h; simp only [collapseGo] at h; exact Or.inl h
  | succ f ih =>
      intro l h
      match l with
      | [] => cases h
      | c :: rest =>
          rw [show collapseGo (f + 1) (c :: rest)
              = if pyIsSpace c then ' ' :: collapseGo f (rest.dropWhile pyIsSpace)
                else c :: collapseGo f rest from rfl] at h
          by_cases hs : pyIsSpace c = true
          · rw [if_pos hs] at h
            rcases List.mem_cons.mp h with h1 | h1
            · exact Or.inr h1
            · rcases ih _ h1 with h2 | h2
              · exact Or.inl (List.mem_cons_of_mem _ ((List.dropWhile_sublist ..).subset h2))
              · exact Or.inr h2
          · rw [if_neg hs] at h
            rcases List.mem_cons.mp h with h1 | h1
            · exact Or.inl (h1 ▸ List.mem_cons_self ..)
            · rcases ih rest h1 with h2 | h2
              · exact Or.inl (List.mem_cons_of_mem _ h2)
              · exact Or.inr h2

theorem unescGo_id : ∀ (fuel : Nat) (l : List Char), '&' ∉ l → unescGo fuel l = l := by
  intro fuel
  induction fuel with
  | zero => intro l h; simp only [unescGo]
  | succ f ih =>
      intro l h
      match l with
      | [] => simp only [unescGo]
      | c :: rest =>
          have hc : ¬ c = '&' := fun he => h (he ▸ List.mem_cons_self ..)
          have hr : '&' ∉ rest := fun hm => h (List.mem_cons_of_mem _ hm)
          simp only [unescGo]
          rw [if_neg hc, ih rest hr]

end Yordam

namespace Yordam

theorem stripTagsGo_noTag :
    ∀ (fuel : Nat) (l : List Char), l.length < fuel → ¬ HasTag (stripTagsGo fuel l) := by
  intro fuel
  induction fuel with
  | zero => intro l hl; cases hl
  | succ f ih =>
      intro l hl htag
      match l with
      | [] =>
          rw [show stripTagsGo (f + 1) [] = [] by simp only [stripTagsGo]] at htag
          exact hasTag_nil htag
      | c :: rest =>
          have hrest : rest.length < f := by
            simpa using Nat.lt_of_succ_lt_succ (by simpa using hl)
          simp only [stripTagsGo] at htag
          by_cases hc : c = '<'
          · rw [if_pos hc] at htag
            split at htag
            · rename_i tail heq
              by_cases ht : rest.takeWhile (· ≠ '>') = []
              · rw [if_pos ht] at htag
                have hrr : rest = '>' :: tail := by
                  conv_lhs => rw [← List.takeWhile_append_dropWhile (p := (· ≠ '>')) (l := rest)]
                  rw [ht, heq, List.nil_append]
                have hfpos : f ≠ 0 := by
                  intro h0
                  rw [hrr, h0] at hrest
                  cases hrest
                obtain ⟨f2, rfl⟩ := Nat.exists_eq_succ_of_ne_zero hfpos
                have hS : stripTagsGo (f2 + 1) rest = '>' :: stripTagsGo f2 tail := by
                  rw [hrr]
                  simp only [stripTagsGo]
                  rw [if_neg (by decide : ¬('>' : Char) = '<')]
                rcases (hasTag_cons _ _).mp htag with ⟨hlt, hmem, htake⟩ | h2
                · rw [hS] at htake
                  exact htake (List.takeWhile_cons_of_neg (by simp))
                · exact ih rest hrest h2
              · rw [if_neg ht] at htag
                have htail : tail.length < f := by
                  have h1 : ('>' :: tail).length ≤ rest.length := by
                    rw [← heq]
                    exact (List.dropWhile_sublist ..).length_le
                  simp only [List.length_cons] at h1
                  omega
                rcases (hasTag_cons _ _).mp htag with ⟨hlt, hmem, htake⟩ | h2
                · cases hlt
                · exact ih tail htail h2
            · rename_i hne
              have hgt : '>' ∉ rest := by
                intro hm
                rcases dropWhile_first_mem rest hm with ⟨post, hp⟩
                exact hne post hp
              rcases (hasTag_cons _ _).mp htag with ⟨hlt, hmem, htake⟩ | h2
              · rcases mem_stripTagsGo f rest hmem with h3 | h3
                · exact hgt h3
                · cases h3
              · exact ih rest hrest h2
          · rw [if_neg hc] at htag
            rcases (hasTag_cons _ _).mp htag with ⟨hlt, hmem, htake⟩ | h2
            · exact hc hlt
            · exact ih rest hrest h2

theorem collapseGo_reflect :
    ∀ (fuel : Nat) (l : List Char), l.length < fuel →
      HasTag (collapseGo fuel l) → HasTag l := by
  intro fuel
  induction fuel with
  | zero => intro l hl; cases hl
  | succ f ih =>
      intro l hl htag
      match l with
      | [] =>
          rw [show collapseGo (f + 1) [] = [] by simp only [collapseGo]] at htag
          exact absurd htag hasTag_nil
      | c :: rest =>
          have hrest : rest.length < f := by
            simpa using Nat.lt_of_succ_lt_succ (by simpa using hl)
          simp only [collapseGo] at htag
          by_cases hs : pyIsSpace c = true
          · rw [if_pos hs] at htag
            rcases (hasTag_cons _ _).mp htag with ⟨hlt, hmem, htake⟩ | h2
            · cases hlt
            · have hdlen : (rest.dropWhile pyIsSpace).length < f :=
                Nat.lt_of_le_of_lt (List.dropWhile_sublist ..).length_le hrest
              have h3 := ih _ hdlen h2
              have h4 : HasTag rest := by
                conv_rhs => rw [← List.takeWhile_append_dropWhile (p := pyIsSpace) (l := rest)]
                exact hasTag_append_left _ _ h3
              exact hasTag_append_left [c] rest h4
          · rw [if_neg hs] at htag
            rcases (hasTag_cons _ _).mp htag with ⟨hlt, hmem, htake⟩ | h2
            · subst hlt
              refine (hasTag_cons _ _).mpr (Or.inl ⟨rfl, ?_, ?_⟩)
              · rcases mem_collapseGo f rest hmem with h3 | h3
                · exact h3
                · cases h3
              · intro ht0
                have hfpos : f ≠ 0 := Nat.pos_iff_ne_zero.mp (Nat.lt_of_le_of_lt (Nat.zero_le _) hrest)
                obtain ⟨f2, rfl⟩ := Nat.exists_eq_succ_of_ne_zero hfpos
                match rest, ht0, hrest, hmem with
                | [], _, _, hmem2 =>
                    rw [show collapseGo (f2 + 1) [] = [] by simp only [collapseGo]] at hmem2
                    cases hmem2
                | r :: rest2, ht2, hrest2, hmem2 =>
                    have hr : r = '>' := by
                      by_cases hr0 : r = '>'
                      · exact hr0
                      · rw [List.takeWhile_cons_of_pos (by simp [hr0])] at ht2
                        cases ht2
                    subst hr
                    rw [show collapseGo (f2 + 1) ('>' :: rest2)
                        = '>' :: collapseGo f2 rest2 by
                      simp only [collapseGo]
                      rw [if_neg (by decide : ¬ pyIsSpace '>' = true)]] at htake
                    exact htake (List.takeWhile_cons_of_neg (by simp))
            · exact hasTag_append_left [c] rest (ih rest hrest h2)

theorem hasTag_pyStrip (s : String) (h : HasTag (pyStrip s).data) : HasTag s.data := by
  unfold pyStrip at h
  have h1 : HasTag ((s.data.dropWhile pyIsSpace).reverse.dropWhile pyIsSpace).reverse := h
  set t := s.data.dropWhile pyIsSpace with htdef
  have h2 : HasTag t := by
    have hsplit : t = (t.reverse.dropWhile pyIsSpace).reverse
        ++ (t.reverse.takeWhile pyIsSpace).reverse := by
      conv_lhs => rw [← List.reverse_reverse t]
      conv_lhs => rw [← List.takeWhile_append_dropWhile (p := pyIsSpace) (l := t.reverse)]
      rw [List.reverse_append]
    rw [hsplit]
    exact hasTag_append_right _ _ h1
  conv_rhs => rw [← List.takeWhile_append_dropWhile (p := pyIsSpace) (l := s.data)]
  exact hasTag_append_left _ _ h2

/-- C8 (amended): for an input containing no `&`, `sanitize_html`'s output
contains no HTML tag — in particular no `<script>` or `<style>` element
survives.  (As stated over all inputs the claim is false: entity-encoded
tags re-materialize because unescaping runs after tag stripping — see the
counterexample.) -/
theorem sanitize_totality :
    ∀ s : String, '&' ∉ s.data → ¬ HasTag (sanitize_html s).data := by
  intro s hamp htag
  have hns : ('&' : Char) ≠ ' ' := by decide
  have hampa : '&' ∉ stripScriptStyleGo (s.data.length + 1) s.data := fun hm =>
    (mem_stripScriptStyleGo _ _ hm).elim hamp hns
  have hampb : '&' ∉ stripTagsGo ((stripScriptStyleGo (s.data.length + 1) s.data).length + 1)
      (stripScriptStyleGo (s.data.length + 1) s.data) := fun hm =>
    (mem_stripTagsGo _ _ hm).elim hampa hns
  have hb := stripTagsGo_noTag ((stripScriptStyleGo (s.data.length + 1) s.data).length + 1)
    (stripScriptStyleGo (s.data.length + 1) s.data) (Nat.lt_succ_self _)
  have hrw : sanitize_html s = pyStrip (String.mk (collapseGo
      ((stripTagsGo ((stripScriptStyleGo (s.data.length + 1) s.data).length + 1)
        (stripScriptStyleGo (s.data.length + 1) s.data)).length + 1)
      (stripTagsGo ((stripScriptStyleGo (s.data.length + 1) s.data).length + 1)
        (stripScriptStyleGo (s.data.length + 1) s.data)))) := by
    unfold sanitize_html
    dsimp only
    rw [unescGo_id _ _ hampb]
  rw [hrw] at htag
  have h3 := hasTag_pyStrip _ htag
  have h4 := collapseGo_reflect _ _ (Nat.lt_succ_self _) h3
  exact hb h4

end Yordam

namespace Yordam

theorem sanitize_totality_witness :
    ('&' ∉ ("x<b>hi</b> <script>bad()</script> y" : String).data) ∧
    ¬ HasTag (sanitize_html "x<b>hi</b> <script>bad()</script> y").data :=
  ⟨by decide, sanitize_totality "x<b>hi</b> <script>bad()</script> y" (by decide)⟩

end Yordam

namespace Yordam

theorem acquireGo_conflict (existing : List (Option PathT × String))
    (task owner now : String) (normalized : List PathT) (p : PathT)
    (hconf : ∀ d2 : LockDir, has_overlap_conflict d2 existing p task = true) :
    ∀ (rest : List PathT) (d : LockDir) (acc : List String), p ∈ rest →
      (acquireGo existing task owner now normalized d acc rest).1
        = ⟨[], []⟩ := by
  intro rest
  induction rest with
  | nil => intro d acc hp; cases hp
  | cons q rest2 ih =>
      intro d acc hp
      by_cases hq : has_overlap_conflict d existing q task = true
      · rw [show acquireGo existing task owner now normalized d acc (q :: rest2)
            = (⟨[], []⟩, release_files d acc) by
          simp only [acquireGo, hq, if_true]]
      · rcases List.mem_cons.mp hp with hp1 | hp1
        · subst hp1
          exact absurd (hconf d) hq
        · have hq2 : has_overlap_conflict d existing q task = false := by
            simpa using hq
          rcases hl : ldLookup d (lock_name q) with _ | content
          · rcases hc : create_lock d (lock_name q) (lock_payload task owner q now)
              with _ | d2
            · rw [show acquireGo existing task owner now normalized d acc (q :: rest2)
                  = (⟨[], []⟩, release_files d acc) by
                simp only [acquireGo, hq2, Bool.false_eq_true, if_false, hl, hc]]
            · rw [show acquireGo existing task owner now normalized d acc (q :: rest2)
                  = acquireGo existing task owner now normalized d2
                      (acc ++ [lock_name q]) rest2 by
                simp only [acquireGo, hq2, Bool.false_eq_true, if_false, hl, hc]]
              exact ih d2 (acc ++ [lock_name q]) hp1
          · by_cases ht : read_task_id content ≠ task
            · rw [show acquireGo existing task owner now normalized d acc (q :: rest2)
                  = (⟨[], []⟩, release_files d acc) by
                simp only [acquireGo, hq2, Bool.false_eq_true, if_false, hl]
                rw [if_pos ht]]
            · rw [show acquireGo existing task owner now normalized d acc (q :: rest2)
                  = acquireGo existing task owner now normalized d
                      (acc ++ [lock_name q]) rest2 by
                simp only [acquireGo, hq2, Bool.false_eq_true, if_false, hl]
                rw [if_neg ht]]
              exact ih d (acc ++ [lock_name q]) hp1

theorem mem_release_files {e : String × String} {d : LockDir} {files : List String}
    (h : e ∈ release_files d files) : e ∈ d ∧ files.contains e.1 = false := by
  unfold release_files at h
  have h1 := List.mem_filter.mp h
  exact ⟨h1.1, by simpa using h1.2⟩

theorem acquireGo_atomic (existing : List (Option PathT × String))
    (task owner now : String) (normalized : List PathT) (d0 : LockDir) :
    ∀ (rest : List PathT) (d : LockDir) (acc : List String)
      (h2 : LockHandle) (d2 : LockDir),
      (∀ e ∈ d, e ∈ d0 ∨ e.1 ∈ acc) →
      acquireGo existing task owner now normalized d acc rest = (h2, d2) →
      h2 = ⟨[], []⟩ →
      ∀ e ∈ d2, e ∈ d0 := by
  intro rest
  induction rest with
  | nil =>
      intro d acc h2 d2 hinv h hh e he
      rw [show acquireGo existing task owner now normalized d acc []
          = (⟨normalized, acc⟩, d) from rfl] at h
      obtain ⟨ha, hb⟩ := Prod.mk.injEq .. ▸ h
      rw [← hb] at he
      rcases hinv e he with h3 | h3
      · exact h3
      · rw [← ha] at hh
        have hacc : acc = [] := congrArg LockHandle.lock_files hh
        rw [hacc] at h3
        cases h3
  | cons q rest2 ih =>
      intro d acc h2 d2 hinv h hh e he
      have hfail : ∀ (dx : LockDir), (⟨[], []⟩ : LockHandle) = h2 →
          release_files dx acc = d2 → (∀ e2 ∈ dx, e2 ∈ d0 ∨ e2.1 ∈ acc) →
          e ∈ d0 := by
        intro dx h1 hrel hinv2
        rw [← hrel] at he
        obtain ⟨he1, he2⟩ := mem_release_files he
        rcases hinv2 e he1 with h3 | h3
        · exact h3
        · rw [show acc.contains e.1 = true by simpa using h3] at he2
          cases he2
      by_cases hq : has_overlap_conflict d existing q task = true
      · rw [show acquireGo existing task owner now normalized d acc (q :: rest2)
            = (⟨[], []⟩, release_files d acc) by
          simp only [acquireGo, hq, if_true]] at h
        obtain ⟨ha, hb⟩ := Prod.mk.injEq .. ▸ h
        exact hfail d ha hb hinv
      · have hq2 : has_overlap_conflict d existing q task = false := by
          simpa using hq
        have hinv2 : ∀ e2 ∈ d, e2 ∈ d0 ∨ e2.1 ∈ acc ++ [lock_name q] := fun e2 he2 =>
          (hinv e2 he2).elim Or.inl fun h3 => Or.inr (List.mem_append.mpr (Or.inl h3))
        rcases hl : ldLookup d (lock_name q) with _ | content
        · rcases hc : create_lock d (lock_name q) (lock_payload task owner q now)
            with _ | dnew
          · rw [show acquireGo existing task owner now normalized d acc (q :: rest2)
                = (⟨[], []⟩, release_files d acc) by
              simp only [acquireGo, hq2, Bool.false_eq_true, if_false, hl, hc]] at h
            obtain ⟨ha, hb⟩ := Prod.mk.injEq .. ▸ h
            exact hfail d ha hb hinv
          · rw [show acquireGo existing task owner now normalized d acc (q :: rest2)
                = acquireGo existing task owner now normalized dnew
                    (acc ++ [lock_name q]) rest2 by
              simp only [acquireGo, hq2, Bool.false_eq_true, if_false, hl, hc]] at h
            have hdnew : dnew = d ++ [(lock_name q, lock_payload task owner q now)] := by
              unfold create_lock at hc
              split at hc
              · cases hc
              · exact (Option.some.inj hc).symm
            have hinv3 : ∀ e2 ∈ dnew, e2 ∈ d0 ∨ e2.1 ∈ acc ++ [lock_name q] := by
              intro e2 he2
              rw [hdnew] at he2
              rcases List.mem_append.mp he2 with h3 | h3
              · exact hinv2 e2 h3
              · refine Or.inr (List.mem_append.mpr (Or.inr ?_))
                rw [List.mem_singleton.mp h3]
                exact List.mem_singleton.mpr rfl
            exact ih dnew (acc ++ [lock_name q]) h2 d2 hinv3 h hh e he
        · by_cases ht : read_task_id content ≠ task
          · rw [show acquireGo existing task owner now normalized d acc (q :: rest2)
                = (⟨[], []⟩, release_files d acc) by
              simp only [acquireGo, hq2, Bool.false_eq_true, if_false, hl]
              rw [if_pos ht]] at h
            obtain ⟨ha, hb⟩ := Prod.mk.injEq .. ▸ h
            exact hfail d ha hb hinv
          · rw [show acquireGo existing task owner now normalized d acc (q :: rest2)
                = acquireGo existing task owner now normalized d
                    (acc ++ [lock_name q]) rest2 by
              simp only [acquireGo, hq2, Bool.false_eq_true, if_false, hl]
              rw [if_neg ht]] at h
            exact ih d (acc ++ [lock_name q]) h2 d2 hinv2 h hh e he

theorem acquireGo_reacquire (existing : List (Option PathT × String))
    (task owner now : String) (normalized : List PathT) (d : LockDir) :
    ∀ (rest : List PathT) (acc : List String),
      (∀ p ∈ rest, has_overlap_conflict d existing p task = false ∧
        ∃ content, ldLookup d (lock_name p) = some content ∧
          read_task_id content = task) →
      acquireGo existing task owner now normalized d acc rest
        = (⟨normalized, acc ++ rest.map lock_name⟩, d) := by
  intro rest
  induction rest with
  | nil =>
      intro acc hp
      rw [show acquireGo existing task owner now normalized d acc []
          = (⟨normalized, acc⟩, d) from rfl]
      rw [List.map_nil, List.append_nil]
  | cons q rest2 ih =>
      intro acc hp
      obtain ⟨hq, content, hl, ht⟩ := hp q (List.mem_cons_self ..)
      rw [show acquireGo existing task owner now normalized d acc (q :: rest2)
          = acquireGo existing task owner now normalized d
              (acc ++ [lock_name q]) rest2 by
        simp only [acquireGo, hq, Bool.false_eq_true, if_false, hl]
        rw [if_neg (not_not_intro ht)]]
      rw [ih (acc ++ [lock_name q]) fun p hp2 => hp p (List.mem_cons_of_mem _ hp2)]
      rw [List.map_cons, List.append_assoc, List.singleton_append]

end Yordam

namespace Yordam

/-- C9 (amended): (i) exclusivity for owned locks: if the lock directory
contains a parseable lock entry of a task with a NON-EMPTY id different from
the requester's, any request containing a path equal to, an ancestor of, or
a descendant of that entry's path returns the empty handle; (ii) conflict
atomicity: a call that returns the empty handle leaves no lock file in the
directory that was not already there; (iii) a task re-acquiring paths it
already holds (its own task id in every lock file, no overlap conflict)
succeeds and reuses its lock files, leaving the directory unchanged.  (As
stated the claim is false for a holder whose task id is the empty string —
`_has_overlap_conflict` treats it as ownerless; see the counterexample.) -/
theorem lock_overlap_exclusivity :
    (∀ (d : LockDir) (paths : List PathT) (task owner now : String)
       (e : Option PathT × String) (P p : PathT),
       e ∈ load_existing_locks d → e.2 ≠ "" → e.2 ≠ task → e.1 = some P →
       p ∈ dedupe_paths (normalize_paths paths) →
       (P.isPrefixOf p || p.isPrefixOf P) = true →
       (acquire_locks d paths task owner now).1 = ⟨[], []⟩) ∧
    (∀ (d : LockDir) (paths : List PathT) (task owner now : String)
       (h2 : LockHandle) (d2 : LockDir),
       acquire_locks d paths task owner now = (h2, d2) → h2 = ⟨[], []⟩ →
       ∀ e ∈ d2, e ∈ d) ∧
    (∀ (d : LockDir) (paths : List PathT) (task owner now : String),
       (∀ p ∈ dedupe_paths (normalize_paths paths),
         has_overlap_conflict d (load_existing_locks d) p task = false ∧
         ∃ content, ldLookup d (lock_name p) = some content ∧
           read_task_id content = task) →
       acquire_locks d paths task owner now
         = (⟨dedupe_paths (normalize_paths paths),
             (dedupe_paths (normalize_paths paths)).map lock_name⟩, d)) := by
  refine ⟨?_, ?_, ?_⟩
  · intro d paths task owner now e P p he hne hnt hP hp hov
    have hconf : ∀ d2 : LockDir,
        has_overlap_conflict d2 (load_existing_locks d) p task = true := by
      intro d2
      unfold has_overlap_conflict
      refine Bool.or_eq_true_iff.mpr (Or.inr ?_)
      refine List.any_eq_true.mpr ⟨e, he, ?_⟩
      simp only [hP]
      rw [if_neg (by simp [hne, hnt])]
      exact hov
    have hrfl : acquire_locks d paths task owner now
        = acquireGo (load_existing_locks d) task owner now
            (dedupe_paths (normalize_paths paths)) d []
            (dedupe_paths (normalize_paths paths)) := rfl
    rw [hrfl]
    exact acquireGo_conflict (load_existing_locks d) task owner now
      (dedupe_paths (normalize_paths paths)) p hconf
      (dedupe_paths (normalize_paths paths)) d [] hp
  · intro d paths task owner now h2 d2 h hh e he
    have hrfl : acquire_locks d paths task owner now
        = acquireGo (load_existing_locks d) task owner now
            (dedupe_paths (normalize_paths paths)) d []
            (dedupe_paths (normalize_paths paths)) := rfl
    rw [hrfl] at h
    exact acquireGo_atomic (load_existing_locks d) task owner now
      (dedupe_paths (normalize_paths paths)) d
      (dedupe_paths (normalize_paths paths)) d [] h2 d2
      (fun e2 he2 => Or.inl he2) h hh e he
  · intro d paths task owner now hall
    have hrfl : acquire_locks d paths task owner now
        = acquireGo (load_existing_locks d) task owner now
            (dedupe_paths (normalize_paths paths)) d []
            (dedupe_paths (normalize_paths paths)) := rfl
    rw [hrfl]
    rw [acquireGo_reacquire (load_existing_locks d) task owner now
      (dedupe_paths (normalize_paths paths)) d
      (dedupe_paths (normalize_paths paths)) [] hall]
    rw [List.nil_append]

end Yordam

namespace Yordam

set_option maxRecDepth 40000 in
theorem lock_overlap_exclusivity_witness :
    (acquire_locks c9Dir2 [["d"]] "b" "owner-b" "t1").1 = ⟨[], []⟩ ∧
    (∀ e ∈ (acquire_locks c9Dir2 [["d"]] "b" "owner-b" "t1").2, e ∈ c9Dir2) ∧
    acquire_locks c9Dir2 [["d", "f"]] "a" "owner-a" "t1"
      = (⟨dedupe_paths (normalize_paths [["d", "f"]]),
          (dedupe_paths (normalize_paths [["d", "f"]])).map lock_name⟩, c9Dir2) :=
  ⟨lock_overlap_exclusivity.1 c9Dir2 [["d"]] "b" "owner-b" "t1"
     (some ["d", "f"], "a") ["d", "f"] ["d"]
     (by decide) (by decide) (by decide) (by decide) (by decide) (by decide),
   lock_overlap_exclusivity.2.1 c9Dir2 [["d"]] "b" "owner-b" "t1"
     ⟨[], []⟩ (acquire_locks c9Dir2 [["d"]] "b" "owner-b" "t1").2
     (by decide) (by decide),
   lock_overlap_exclusivity.2.2 c9Dir2 [["d", "f"]] "a" "owner-a" "t1"
     (by
       intro p hp
       rw [show dedupe_paths (normalize_paths [["d", "f"]]) = [["d", "f"]] from by decide]
         at hp
       rw [List.mem_singleton.mp hp]
       exact ⟨by decide,
         ⟨"path=/d/f\ntask_id=a\nowner=owner-a\ncreated_at=t0\n", by decide, by decide⟩⟩)⟩

end Yordam

namespace Yordam

theorem strip_hash_fields_eq_hash {kvs1 kvs2 : List (String × Json)}
    (h : strip_hash_fields kvs1 = strip_hash_fields kvs2) :
    computePlanHashKv kvs1 = computePlanHashKv kvs2 := by
  unfold computePlanHashKv
  rw [h]

theorem strip_append_plan_hash (kvs : List (String × Json)) (v : Json) :
    strip_hash_fields (kvs ++ [("plan_hash", v)]) = strip_hash_fields kvs := by
  unfold strip_hash_fields
  rw [List.filter_append]
  simp

theorem strip_append_approval (kvs : List (String × Json)) (v : Json) :
    strip_hash_fields (kvs ++ [("approval", v)]) = strip_hash_fields kvs := by
  unfold strip_hash_fields
  rw [List.filter_append]
  simp

theorem strip_idem (kvs : List (String × Json)) :
    strip_hash_fields (strip_hash_fields kvs) = strip_hash_fields kvs := by
  unfold strip_hash_fields
  rw [List.filter_filter]
  congr 1
  funext a
  rw [Bool.and_self]

theorem hexPadAux_length : ∀ (k n : Nat) (acc : List Char),
    (hexPadAux k n acc).length = k + acc.length := by
  intro k
  induction k with
  | zero => intro n acc; simp [hexPadAux]
  | succ k2 ih =>
      intro n acc
      rw [show hexPadAux (k2 + 1) n acc
          = hexPadAux k2 (n / 16) (hexDigit (n % 16) :: acc) from rfl]
      rw [ih]
      simp
      omega

theorem hexDigit_mem (m : Nat) (h : m < 16) :
    hexDigit m ∈ ("0123456789abcdef" : String).data := by
  interval_cases m <;> decide

theorem hexPadAux_mem {x : Char} : ∀ (k n : Nat) (acc : List Char),
    x ∈ hexPadAux k n acc → x ∈ acc ∨ x ∈ ("0123456789abcdef" : String).data := by
  intro k
  induction k with
  | zero => intro n acc h; exact Or.inl h
  | succ k2 ih =>
      intro n acc h
      rw [show hexPadAux (k2 + 1) n acc
          = hexPadAux k2 (n / 16) (hexDigit (n % 16) :: acc) from rfl] at h
      rcases ih (n / 16) _ h with h1 | h1
      · rcases List.mem_cons.mp h1 with h2 | h2
        · exact Or.inr (h2 ▸ hexDigit_mem _ (Nat.mod_lt _ (by norm_num)))
        · exact Or.inl h2
      · exact Or.inr h1

theorem plan_hash_shape (kvs : List (String × Json)) (h : String)
    (hh : compute_plan_hash (.obj kvs) = .ok h) :
    strStarts h "sha256:" = true ∧ (strDrop h 7).length = 64 ∧
    ∀ c ∈ (strDrop h 7).data, c ∈ ("0123456789abcdef" : String).data := by
  have h1 : h = "sha256:" ++ sha256Hex (utf8Bytes (ser (.obj (strip_hash_fields kvs)))) :=
    (Except.ok.inj hh).symm
  subst h1
  set N := sha256Nat (utf8Bytes (ser (.obj (strip_hash_fields kvs)))) with hN
  have hdata : ("sha256:" ++ sha256Hex (utf8Bytes (ser (.obj (strip_hash_fields kvs))))).data
      = "sha256:".data ++ hexPadAux 64 N [] := by
    rw [String.data_append]
    rfl
  refine ⟨?_, ?_, ?_⟩
  · unfold strStarts
    rw [hdata]
    exact List.isPrefixOf_iff_prefix.mpr (List.prefix_append ..)
  · unfold strDrop
    show (("sha256:" ++ sha256Hex _).data.drop 7).length = 64
    rw [hdata, List.drop_left' (show ("sha256:" : String).data.length = 7 by rfl),
      hexPadAux_length]
    rfl
  · intro c hc
    have hc2 : c ∈ List.drop 7 ("sha256:" ++ sha256Hex
        (utf8Bytes (ser (Json.obj (strip_hash_fields kvs))))).data := hc
    rw [hdata, List.drop_left' (show ("sha256:" : String).data.length = 7 by rfl)] at hc2
    rcases hexPadAux_mem 64 N [] hc2 with h2 | h2
    · cases h2
    · exact h2

end Yordam

namespace Yordam

theorem charsLe_total : ∀ a b : List Char, charsLe a b = true ∨ charsLe b a = true := by
  intro a
  induction a with
  | nil => intro b; exact Or.inl rfl
  | cons x xs ih =>
      intro b
      match b with
      | [] => exact Or.inr rfl
      | y :: ys =>
          by_cases h1 : x.toNat < y.toNat
          · refine Or.inl ?_
            unfold charsLe
            rw [if_pos h1]
          · by_cases h2 : y.toNat < x.toNat
            · refine Or.inr ?_
              unfold charsLe
              rw [if_pos h2]
            · rcases ih ys with h3 | h3
              · refine Or.inl ?_
                unfold charsLe
                rw [if_neg h1, if_neg h2]
                exact h3
              · refine Or.inr ?_
                unfold charsLe
                rw [if_neg h2, if_neg h1]
                exact h3

theorem strLe_total (a b : String) : strLe a b = true ∨ strLe b a = true :=
  charsLe_total a.data b.data


theorem serPairs_eq_mapVal : ∀ kvs : List (String × Json), serPairs kvs = mapVal ser kvs := by
  intro kvs
  induction kvs with
  | nil => rfl
  | cons kv rest ih =>
      obtain ⟨k, v⟩ := kv
      rw [show serPairs ((k, v) :: rest) = (k, ser v) :: serPairs rest from rfl, ih]
      rfl

theorem canonPairs_eq_mapVal : ∀ kvs : List (String × Json),
    canonPairs kvs = mapVal canon kvs := by
  intro kvs
  induction kvs with
  | nil => rfl
  | cons kv rest ih =>
      obtain ⟨k, v⟩ := kv
      rw [show canonPairs ((k, v) :: rest) = (k, canon v) :: canonPairs rest from rfl, ih]
      rfl

theorem insPair_mapVal {α β : Type} (f : α → β) (p : String × α) :
    ∀ l : List (String × α),
      insPair (p.1, f p.2) (mapVal f l) = mapVal f (insPair p l) := by
  intro l
  induction l with
  | nil => rfl
  | cons q rest ih =>
      obtain ⟨qk, qv⟩ := q
      show insPair (p.1, f p.2) ((qk, f qv) :: mapVal f rest)
        = mapVal f (insPair p ((qk, qv) :: rest))
      unfold insPair
      by_cases hle : strLe p.1 qk = true
      · rw [if_pos hle, if_pos hle]
        rfl
      · rw [if_neg hle, if_neg hle]
        show (qk, f qv) :: insPair (p.1, f p.2) (mapVal f rest) = _
        rw [ih]
        rfl

theorem sortPairs_mapVal {α β : Type} (f : α → β) :
    ∀ l : List (String × α), sortPairs (mapVal f l) = mapVal f (sortPairs l) := by
  intro l
  induction l with
  | nil => rfl
  | cons p rest ih =>
      show sortPairs ((p.1, f p.2) :: mapVal f rest) = mapVal f (insPair p (sortPairs rest))
      rw [show sortPairs ((p.1, f p.2) :: mapVal f rest)
          = insPair (p.1, f p.2) (sortPairs (mapVal f rest)) from rfl]
      rw [ih, insPair_mapVal]


theorem insPair_sorted {α : Type} (p : String × α) :
    ∀ l : List (String × α), KSorted l → KSorted (insPair p l) := by
  intro l
  induction l with
  | nil => intro h; exact List.chain'_singleton _
  | cons q rest ih =>
      intro h
      unfold insPair
      by_cases hle : strLe p.1 q.1 = true
      · rw [if_pos hle]
        exact List.chain'_cons.mpr ⟨hle, h⟩
      · rw [if_neg hle]
        have hqp : strLe q.1 p.1 = true := (strLe_total p.1 q.1).resolve_left hle
        have hrest : KSorted rest := (List.chain'_cons'.mp h).2
        have hins := ih hrest
        refine List.chain'_cons'.mpr ⟨?_, hins⟩
        intro y hy
        cases hrest2 : rest with
        | nil =>
            rw [hrest2] at hy
            rw [show insPair p ([] : List (String × α)) = [p] from rfl] at hy
            have hyp : y = p := Option.some.inj (Option.mem_def.mp hy).symm
            rw [hyp]
            exact hqp
        | cons r rest2 =>
            rw [hrest2] at hy
            unfold insPair at hy
            by_cases hle2 : strLe p.1 r.1 = true
            · rw [if_pos hle2] at hy
              have hyp : y = p := Option.some.inj (Option.mem_def.mp hy).symm
              rw [hyp]
              exact hqp
            · rw [if_neg hle2] at hy
              have hyr : y = r := Option.some.inj (Option.mem_def.mp hy).symm
              have hqr : strLe q.1 r.1 = true := by
                rw [hrest2] at h
                exact (List.chain'_cons.mp h).1
              rw [hyr]
              exact hqr
  
end Yordam

namespace Yordam

theorem sortPairs_sorted {α : Type} : ∀ l : List (String × α), KSorted (sortPairs l) := by
  intro l
  induction l with
  | nil => exact List.chain'_nil
  | cons p rest ih =>
      rw [show sortPairs (p :: rest) = insPair p (sortPairs rest) from rfl]
      exact insPair_sorted p _ ih

theorem sortPairs_of_sorted {α : Type} : ∀ l : List (String × α),
    KSorted l → sortPairs l = l := by
  intro l
  induction l with
  | nil => intro h; rfl
  | cons p rest ih =>
      intro h
      rw [show sortPairs (p :: rest) = insPair p (sortPairs rest) from rfl]
      rw [ih ((List.chain'_cons'.mp h).2)]
      cases hrest : rest with
      | nil => rfl
      | cons q rest2 =>
          have hpq : strLe p.1 q.1 = true := by
            rw [hrest] at h
            exact (List.chain'_cons.mp h).1
          unfold insPair
          rw [if_pos hpq]

theorem sortPairs_idem {α : Type} (l : List (String × α)) :
    sortPairs (sortPairs l) = sortPairs l :=
  sortPairs_of_sorted _ (sortPairs_sorted l)

end Yordam
namespace Yordam

mutual

theorem ser_canon : ∀ j : Json, ser (canon j) = ser j
  | .null => rfl
  | .bool b => rfl
  | .int n => rfl
  | .str s => rfl
  | .arr xs => by
      rw [show canon (.arr xs) = .arr (canonList xs) from rfl]
      rw [show ser (.arr (canonList xs))
          = "[" ++ String.intercalate "," (serList (canonList xs)) ++ "]" from rfl]
      rw [serList_canonList xs]
      rfl
  | .obj kvs => by
      rw [show canon (.obj kvs) = .obj (sortPairs (canonPairs kvs)) from rfl]
      rw [show ser (.obj (sortPairs (canonPairs kvs)))
          = "\x7b" ++
            String.intercalate ","
              ((sortPairs (serPairs (sortPairs (canonPairs kvs)))).map
                fun p => quoteStr p.1 ++ ":" ++ p.2) ++
            "\x7d" from rfl]
      rw [show ser (.obj kvs)
          = "\x7b" ++
            String.intercalate ","
              ((sortPairs (serPairs kvs)).map fun p => quoteStr p.1 ++ ":" ++ p.2) ++
            "\x7d" from rfl]
      rw [serPairs_eq_mapVal (sortPairs (canonPairs kvs))]
      rw [← sortPairs_mapVal ser (canonPairs kvs)]
      rw [sortPairs_idem]
      rw [← serPairs_eq_mapVal (canonPairs kvs)]
      rw [serPairs_canonPairs kvs]

theorem serList_canonList : ∀ xs : List Json, serList (canonList xs) = serList xs
  | [] => rfl
  | x :: xs => by
      rw [show canonList (x :: xs) = canon x :: canonList xs from rfl]
      rw [show serList (canon x :: canonList xs)
          = ser (canon x) :: serList (canonList xs) from rfl]
      rw [ser_canon x, serList_canonList xs]
      rfl

theorem serPairs_canonPairs : ∀ kvs : List (String × Json),
    serPairs (canonPairs kvs) = serPairs kvs
  | [] => rfl
  | (k, v) :: rest => by
      rw [show canonPairs ((k, v) :: rest) = (k, canon v) :: canonPairs rest from rfl]
      rw [show serPairs ((k, canon v) :: canonPairs rest)
          = (k, ser (canon v)) :: serPairs (canonPairs rest) from rfl]
      rw [ser_canon v, serPairs_canonPairs rest]
      rfl

end

theorem hash_canon_eq (kvs1 kvs2 : List (String × Json))
    (h : canon (.obj (strip_hash_fields kvs1)) = canon (.obj (strip_hash_fields kvs2))) :
    computePlanHashKv kvs1 = computePlanHashKv kvs2 := by
  unfold computePlanHashKv
  have h2 : ser (.obj (strip_hash_fields kvs1)) = ser (.obj (strip_hash_fields kvs2)) := by
    rw [← ser_canon (.obj (strip_hash_fields kvs1)), h, ser_canon]
  rw [h2]

end Yordam

namespace Yordam


theorem w32_lt (n : Nat) : w32 n < 2 ^ 32 := by
  unfold w32
  exact Nat.mod_lt _ (by norm_num)

theorem compressBlock_bounded (st : H8) (block : List Nat) :
    (compressBlock st block).bounded := by
  unfold compressBlock
  exact ⟨w32_lt _, w32_lt _, w32_lt _, w32_lt _, w32_lt _, w32_lt _, w32_lt _, w32_lt _⟩

theorem shaInit_bounded : shaInit.bounded := by
  constructor
  · decide
  constructor
  · decide
  constructor
  · decide
  constructor
  · decide
  constructor
  · decide
  constructor
  · decide
  constructor
  · decide
  · decide

theorem foldl_compress_bounded :
    ∀ (blocks : List (List Nat)) (st : H8), st.bounded →
      (blocks.foldl compressBlock st).bounded := by
  intro blocks
  induction blocks with
  | nil => intro st h; exact h
  | cons b rest ih =>
      intro st h
      rw [List.foldl_cons]
      exact ih (compressBlock st b) (compressBlock_bounded st b)

theorem shift_or_lt {x y : Nat} {k : Nat} (hx : x < 2 ^ k) (hy : y < 2 ^ 32) :
    (x <<< 32 ||| y) < 2 ^ (k + 32) := by
  have h1 : x <<< 32 < 2 ^ (k + 32) := by
    rw [Nat.shiftLeft_eq, Nat.pow_add]
    exact Nat.mul_lt_mul_of_lt_of_le hx (Nat.le_refl _) (by norm_num)
  have h2 : y < 2 ^ (k + 32) := Nat.lt_of_lt_of_le hy (Nat.pow_le_pow_right (by norm_num) (by omega))
  exact Nat.or_lt_two_pow h1 h2

theorem sha256Nat_lt (msg : List Nat) : sha256Nat msg < 2 ^ 256 := by
  unfold sha256Nat
  obtain ⟨ha, hb, hc, hd, he, hf, hg, hh⟩ :=
    foldl_compress_bounded (blocks64 (shaPad msg)) shaInit shaInit_bounded
  exact shift_or_lt (shift_or_lt (shift_or_lt (shift_or_lt (shift_or_lt (shift_or_lt
    (shift_or_lt ha hb) hc) hd) he) hf) hg) hh

end Yordam

namespace Yordam



set_option maxRecDepth 40000 in
theorem bitStr_inj {f1 f2 : Fin 257 → Bool} (h : bitStr f1 = bitStr f2) : f1 = f2 := by
  funext i
  have h0 : (bitStr f1).data = (bitStr f2).data := congrArg String.data h
  have h2 : (List.finRange 257).map (fun i => if f1 i then '1' else '0')
      = (List.finRange 257).map (fun i => if f2 i then '1' else '0') := h0
  have h4 : (if f1 i then '1' else '0') = (if f2 i then '1' else '0') := by
    have h3 := List.map_inj_left.mp h2
    exact h3 i (List.mem_finRange i)
  cases hf1 : f1 i <;> cases hf2 : f2 i <;> rw [hf1, hf2] at h4 <;>
    first
      | rfl
      | exact absurd h4 (by decide)

theorem hash_iff_counterexample :
    ∃ kvs1 kvs2 : List (String × Json),
      computePlanHashKv kvs1 = computePlanHashKv kvs2 ∧
      Json.obj (strip_hash_fields kvs1) ≠ Json.obj (strip_hash_fields kvs2) := by
  have hcard : Fintype.card (Fin (2 ^ 256)) < Fintype.card (Fin 257 → Bool) := by
    rw [Fintype.card_fin, Fintype.card_fun, Fintype.card_bool, Fintype.card_fin]
    exact Nat.pow_lt_pow_right (by norm_num) (by norm_num)
  obtain ⟨f1, f2, hne, heq⟩ := Fintype.exists_ne_map_eq_of_card_lt
    (fun f : Fin 257 → Bool =>
      (⟨sha256Nat (utf8Bytes (ser (.obj (strip_hash_fields (bitPlanKv f))))),
        sha256Nat_lt _⟩ : Fin (2 ^ 256))) hcard
  refine ⟨bitPlanKv f1, bitPlanKv f2, ?_, ?_⟩
  · have hN : sha256Nat (utf8Bytes (ser (.obj (strip_hash_fields (bitPlanKv f1)))))
        = sha256Nat (utf8Bytes (ser (.obj (strip_hash_fields (bitPlanKv f2))))) :=
      congrArg Fin.val heq
    unfold computePlanHashKv sha256Hex
    rw [hN]
  · intro hstruct
    have h1 : strip_hash_fields (bitPlanKv f1) = [("a", .str (bitStr f1))] := rfl
    have h2 : strip_hash_fields (bitPlanKv f2) = [("a", .str (bitStr f2))] := rfl
    rw [h1, h2] at hstruct
    simp only [Json.obj.injEq, List.cons.injEq, Prod.mk.injEq, Json.str.injEq,
      true_and, and_true] at hstruct
    exact hne (bitStr_inj hstruct)

end Yordam

namespace Yordam





set_option maxRecDepth 100000 in
theorem c1_concrete :
    computePlanHashKv c1PlanA = computePlanHashKv c1PlanB ∧
    computePlanHashKv c1PlanC ≠ computePlanHashKv c1PlanD := ⟨by decide, by decide⟩

end Yordam

namespace Yordam

/-- C1 (amended): the hash ignores exactly the `plan_hash` and `approval`
keys (any modification of a plan that leaves the stripped key set unchanged
— adding, setting or removing those two keys — leaves the hash unchanged);
the result is the string `sha256:` followed by 64 lowercase hex digits, the
SHA-256 of the canonical serialization of the stripped plan; plans with
equal canonical forms — equal up to recursive reordering of object keys,
including inside `args` — hash equal, and concretely reordering keys leaves
the hash unchanged while reordering the `tool_calls` list changes it.  (The
claim's "two plans have equal hashes iff their stripped content is
structurally equal" is false in the hash-to-content direction: SHA-256 is
not injective — see the counterexample.) -/
theorem hash_stability :
    (∀ kvs1 kvs2 : List (String × Json), strip_hash_fields kvs1 = strip_hash_fields kvs2 →
      computePlanHashKv kvs1 = computePlanHashKv kvs2) ∧
    (∀ (kvs : List (String × Json)) (v : Json),
      strip_hash_fields (kvs ++ [("plan_hash", v)]) = strip_hash_fields kvs ∧
      strip_hash_fields (kvs ++ [("approval", v)]) = strip_hash_fields kvs ∧
      strip_hash_fields (strip_hash_fields kvs) = strip_hash_fields kvs) ∧
    (∀ kvs : List (String × Json), compute_plan_hash (.obj kvs)
      = .ok ("sha256:" ++ sha256Hex (utf8Bytes (ser (.obj (strip_hash_fields kvs)))))) ∧
    (∀ (kvs : List (String × Json)) (h : String), compute_plan_hash (.obj kvs) = .ok h →
      strStarts h "sha256:" = true ∧ (strDrop h 7).length = 64 ∧
      ∀ c ∈ (strDrop h 7).data, c ∈ ("0123456789abcdef" : String).data) ∧
    (∀ kvs1 kvs2 : List (String × Json),
      canon (.obj (strip_hash_fields kvs1)) = canon (.obj (strip_hash_fields kvs2)) →
      computePlanHashKv kvs1 = computePlanHashKv kvs2) ∧
    computePlanHashKv c1PlanA = computePlanHashKv c1PlanB ∧
    computePlanHashKv c1PlanC ≠ computePlanHashKv c1PlanD :=
  ⟨fun _ _ h => strip_hash_fields_eq_hash h,
   fun kvs v => ⟨strip_append_plan_hash kvs v, strip_append_approval kvs v, strip_idem kvs⟩,
   fun _ => rfl,
   plan_hash_shape,
   hash_canon_eq,
   c1_concrete.1, c1_concrete.2⟩

theorem hash_stability_witness :
    computePlanHashKv [("a", Json.int 1), ("plan_hash", Json.str "x")]
      = computePlanHashKv [("a", Json.int 1)] ∧
    (strStarts ("sha256:" ++ sha256Hex (utf8Bytes (ser (.obj (strip_hash_fields c1PlanA)))))
        "sha256:" = true ∧
      (strDrop ("sha256:" ++ sha256Hex (utf8Bytes (ser (.obj (strip_hash_fields c1PlanA)))))
        7).length = 64 ∧
      ∀ c ∈ (strDrop ("sha256:" ++ sha256Hex (utf8Bytes (ser
          (.obj (strip_hash_fields c1PlanA))))) 7).data,
        c ∈ ("0123456789abcdef" : String).data) ∧
    computePlanHashKv c1PlanA = computePlanHashKv c1PlanB ∧
    strip_hash_fields ([("a", Json.int 1)] ++ [("plan_hash", Json.str "x")])
      = strip_hash_fields [("a", Json.int 1)] :=
  ⟨hash_stability.1 _ _ (by decide),
   hash_stability.2.2.2.1 c1PlanA _ rfl,
   hash_stability.2.2.2.2.1 c1PlanA c1PlanB (by decide),
   (hash_stability.2.1 [("a", Json.int 1)] (Json.str "x")).1⟩

end Yordam
